import Mathlib

/-!
Verification development for the Arabic screenplay formatter.

The repository's core is a rule-based line classifier for Arabic screenplay
text together with a measurement-driven pagination engine.  This file gives a
shallow embedding of those parts of the source:

* strings are `List Char`, mirroring JavaScript strings;
* the DOM measurement oracle of the pagination engine is an explicit
  function from a block's text content to its measured outer height (ℚ);
* every partial JavaScript operation is embedded as a total Lean function
  returning `Option`.

Definitions keep the names of the source functions where possible.
-/

namespace Screenplay

/-! ## JavaScript string primitives -/

/-- Characters matched by the JavaScript regular-expression class `\s`
(also the set stripped by `String.prototype.trim`). -/
def isWs (c : Char) : Bool :=
  c.toNat = 0x09 || c.toNat = 0x0A || c.toNat = 0x0B || c.toNat = 0x0C ||
  c.toNat = 0x0D || c.toNat = 0x20 || c.toNat = 0xA0 || c.toNat = 0x1680 ||
  (0x2000 ≤ c.toNat && c.toNat ≤ 0x200A) || c.toNat = 0x2028 ||
  c.toNat = 0x2029 || c.toNat = 0x202F || c.toNat = 0x205F ||
  c.toNat = 0x3000 || c.toNat = 0xFEFF

/-- JavaScript `String.prototype.trim`. -/
def jsTrim (l : List Char) : List Char :=
  ((l.dropWhile isWs).reverse.dropWhile isWs).reverse

theorem length_dropWhile_le (p : Char → Bool) (l : List Char) :
    (l.dropWhile p).length ≤ l.length :=
  (List.dropWhile_suffix p).sublist.length_le

/-- Fuel-indexed worker for `jsSplitWs`; the fuel only bounds the number of
fields produced, and `jsSplitWs` supplies enough for the whole string. -/
def jsSplitWsGo : ℕ → List Char → List (List Char)
  | 0, _ => []
  | fuel + 1, l =>
    let pre := l.takeWhile (fun c => !isWs c)
    let rest := l.dropWhile (fun c => !isWs c)
    match rest with
    | [] => [pre]
    | _ :: t => pre :: jsSplitWsGo fuel (t.dropWhile isWs)

/-- JavaScript `str.split(/\s+/)`: fields between maximal whitespace runs;
a leading (resp. trailing) whitespace run contributes an empty first
(resp. last) field, and the empty string yields `[""]`. -/
def jsSplitWs (l : List Char) : List (List Char) :=
  jsSplitWsGo (l.length + 1) l

theorem jsSplitWsGo_irrel : ∀ (f1 f2 : ℕ) (l : List Char),
    l.length < f1 → l.length < f2 → jsSplitWsGo f1 l = jsSplitWsGo f2 l := by
  intro f1
  induction f1 with
  | zero => intro f2 l h1; omega
  | succ f1 ih =>
      intro f2 l h1 h2
      match f2, h2 with
      | f2 + 1, h2 =>
        rw [jsSplitWsGo, jsSplitWsGo]
        have hrl : (l.dropWhile (fun c => !isWs c)).length ≤ l.length :=
          length_dropWhile_le _ l
        rcases hrest : l.dropWhile (fun c => !isWs c) with _ | ⟨c, t⟩
        · simp only [hrest]
        · have ht : t.length + 1 ≤ l.length := by
            rw [hrest] at hrl; simpa using hrl
          have htd : (t.dropWhile isWs).length ≤ t.length :=
            length_dropWhile_le isWs t
          have hih := ih f2 (t.dropWhile isWs) (by omega) (by omega)
          simp only [hrest, hih]

/-- Unfolding equation of `jsSplitWs`, mirroring the recursive structure of
repeated leftmost matching of `/\s+/`. -/
theorem jsSplitWs_eq (l : List Char) :
    jsSplitWs l =
      match l.dropWhile (fun c => !isWs c) with
      | [] => [l.takeWhile (fun c => !isWs c)]
      | _ :: t => l.takeWhile (fun c => !isWs c) :: jsSplitWs (t.dropWhile isWs) := by
  rw [jsSplitWs, jsSplitWsGo]
  have hrl : (l.dropWhile (fun c => !isWs c)).length ≤ l.length :=
    length_dropWhile_le _ l
  rcases hrest : l.dropWhile (fun c => !isWs c) with _ | ⟨c, t⟩
  · simp only [hrest]
  · have ht : t.length + 1 ≤ l.length := by
      rw [hrest] at hrl; simpa using hrl
    have htd : (t.dropWhile isWs).length ≤ t.length :=
      length_dropWhile_le isWs t
    have hih := jsSplitWsGo_irrel l.length ((t.dropWhile isWs).length + 1)
      (t.dropWhile isWs) (by omega) (by omega)
    simp only [hrest, jsSplitWs, hih]

/-- JavaScript `str.split(/\s+/).filter(Boolean)` — the whitespace-delimited
word sequence of a string. -/
def splitWsFilter (l : List Char) : List (List Char) :=
  (jsSplitWs l).filter (· ≠ [])

/-- JavaScript `words.join(' ')`. -/
def joinWords : List (List Char) → List Char
  | [] => []
  | [w] => w
  | w :: ws => w ++ ' ' :: joinWords ws

/-! ## Pagination engine state

`text-flow-monitor.ts` contains two engines with the same page state:
`PaginationEngine` and `AdvancedPaginationEngine`.  A page is the list of
blocks placed in its content region; each block carries the text content of
the rendered node and the outer height (box height plus top and bottom
margins) reported for it by the measurement oracle.  `total` is the
`clientHeight` of a page's content region (identical for all pages of one
engine, as all pages share the same layout). -/

structure Block where
  text : List Char
  height : ℚ
deriving DecidableEq

structure Engine where
  prevPages : List (List Block)
  current : List Block
  total : ℚ
deriving DecidableEq

/-- Engine freshly constructed on a host: a single empty page. -/
def initEngine (total : ℚ) : Engine := ⟨[], [], total⟩

/-- Sum of the outer heights of the blocks of one page. -/
def sumHeights (page : List Block) : ℚ := (page.map Block.height).sum

/-- The half-pixel safety margin `FONT_READY_MARGIN = 0.5`. -/
def fontReadyMargin : ℚ := 1/2

/-- All pages of the engine, in order (`pages` array; `current` is last). -/
def pagesList (e : Engine) : List (List Block) := e.prevPages ++ [e.current]

def numPages (e : Engine) : ℕ := (pagesList e).length

/-- All blocks of the engine in page order. -/
def flattenBlocks (e : Engine) : List Block := (pagesList e).flatten

/-- `PaginationEngine.addPage` (page separators are visual only). -/
def addPage (e : Engine) : Engine :=
  { e with prevPages := e.prevPages ++ [e.current], current := [] }

/-- `PaginationEngine.remainingHeight`:
`total - used - FONT_READY_MARGIN`, clamped to be non-negative. -/
def remainingHeight (e : Engine) : ℚ :=
  let used := sumHeights e.current
  let remaining := e.total - used - fontReadyMargin
  if remaining > 0 then remaining else 0

/-- `PaginationEngine.appendBlock`: append the built node to the current
page, measure, and move it to a fresh page when it does not fit and the
page already holds another block. -/
def appendBlock (e : Engine) (b : Block) : Engine :=
  let e1 : Engine := { e with current := e.current ++ [b] }
  let height := b.height
  let remaining := remainingHeight e1
  if height > remaining ∧ 1 < e1.current.length then
    { e with prevPages := e.prevPages ++ [e.current], current := [b] }
  else e1

/-- Text of the probe node `build(cnt)` in `appendTextParagraph`:
`words.slice(0, cnt).join(' ')`. -/
def probeText (words : List (List Char)) (cnt : ℕ) : List Char :=
  joinWords (words.take cnt)

/-- Fit test of `PaginationEngine.appendTextParagraph`: insert the probe,
check `remainingHeight() >= 0`, remove the probe. -/
def fitsProbe (e : Engine) (measure : List Char → ℚ) (words : List (List Char))
    (cnt : ℕ) : Bool :=
  let probe : Block := ⟨probeText words cnt, measure (probeText words cnt)⟩
  decide (0 ≤ remainingHeight { e with current := e.current ++ [probe] })

/-- The `while (lo <= hi)` binary-search loop shared verbatim by both
engines' `appendTextParagraph`, abstracted over the fit test
(`lo`/`hi`/`best` are JavaScript numbers, hence `Int`;
`(lo + hi) >> 1` and `Math.floor((lo + hi) / 2)` are both floor division). -/
def binSearchGen (fits : Nat → Bool) (lo hi best : Int) : Int :=
  if _h : lo ≤ hi then
    let mid := (lo + hi) / 2
    if fits mid.toNat then
      binSearchGen fits (mid + 1) hi mid
    else
      binSearchGen fits lo (mid - 1) best
  else best
termination_by (hi + 1 - lo).toNat
decreasing_by
  · omega
  · omega

/-- Binary search of `PaginationEngine.appendTextParagraph`. -/
def binSearch (e : Engine) (measure : List Char → ℚ) (words : List (List Char))
    (lo hi best : Int) : Int :=
  binSearchGen (fitsProbe e measure words) lo hi best

/-- Text content of the empty-paragraph placeholder block
(`innerHTML = '&nbsp;'`, i.e. one no-break space). -/
def nbspText : List Char := [' ']

/-- `PaginationEngine.appendTextParagraph`.  The source recursion on the
remaining words is syntactically unbounded, so the embedding carries fuel;
`appendTextParagraph_always_fits` shows the recursive call is never taken,
so the result does not depend on the fuel. -/
def appendTextParagraph (e : Engine) (measure : List Char → ℚ)
    (rawText : List Char) (fuel : ℕ) : Engine :=
  let words := splitWsFilter rawText
  if words = [] then
    appendBlock e ⟨nbspText, measure nbspText⟩
  else
    let e1 := if remainingHeight e ≤ 0 then addPage e else e
    let best := (binSearch e1 measure words 1 (words.length : Int) 0).toNat
    let e2 :=
      if 0 < best then
        appendBlock e1 ⟨probeText words best, measure (probeText words best)⟩
      else e1
    let remainingWords := words.drop best
    if remainingWords = [] then e2
    else
      match fuel with
      | 0 => e2
      | n + 1 =>
          appendTextParagraph (addPage e2) measure (joinWords remainingWords) n

/-- `AdvancedPaginationEngine.remainingHeight`
(`Math.max(0, total - used - 0.5)`). -/
def advRemainingHeight (e : Engine) : ℚ :=
  let total := e.total
  let used := sumHeights e.current
  max 0 (total - used - (1/2 : ℚ))

/-- `AdvancedPaginationEngine.appendBlock`. -/
def advAppendBlock (e : Engine) (b : Block) : Engine :=
  let e1 : Engine := { e with current := e.current ++ [b] }
  let H := b.height
  let rem := advRemainingHeight e1
  if H > rem ∧ 1 < e1.current.length then
    { e with prevPages := e.prevPages ++ [e.current], current := [b] }
  else e1

/-- Fit test of `AdvancedPaginationEngine.appendTextParagraph`:
`H <= this.remainingHeight() + H`, measured with the probe inserted. -/
def advFits (e : Engine) (measure : List Char → ℚ) (words : List (List Char))
    (cnt : ℕ) : Bool :=
  let probe : Block := ⟨probeText words cnt, measure (probeText words cnt)⟩
  decide (probe.height ≤
    advRemainingHeight { e with current := e.current ++ [probe] } + probe.height)

/-- Binary search of `AdvancedPaginationEngine.appendTextParagraph`
(`lo` starts at 0 there). -/
def advBinSearch (e : Engine) (measure : List Char → ℚ)
    (words : List (List Char)) (lo hi best : Int) : Int :=
  binSearchGen (advFits e measure words) lo hi best

/-- `AdvancedPaginationEngine.appendTextParagraph`: splits with a bare
`split(/\s+/)` (no `filter(Boolean)`), and recursion runs on the trimmed
rejoined remainder.  Fuel as in `appendTextParagraph`. -/
def advAppendTextParagraph (e : Engine) (measure : List Char → ℚ)
    (rawText : List Char) (fuel : ℕ) : Engine :=
  let words := jsSplitWs rawText
  let e0 := if advRemainingHeight e ≤ 0 then addPage e else e
  let best := (advBinSearch e0 measure words 0 (words.length : Int) 0).toNat
  let e2 :=
    if 0 < best then
      advAppendBlock e0 ⟨probeText words best, measure (probeText words best)⟩
    else e0
  let rest := jsTrim (joinWords (words.drop best))
  if rest = [] then e2
  else
    match fuel with
    | 0 => e2
    | n + 1 => advAppendTextParagraph (addPage e2) measure rest n

/-! ## Basic engine lemmas -/

theorem remainingHeight_nonneg (e : Engine) : 0 ≤ remainingHeight e := by
  unfold remainingHeight
  dsimp only
  split
  · linarith
  · exact le_refl 0

theorem advRemainingHeight_nonneg (e : Engine) : 0 ≤ advRemainingHeight e :=
  le_max_left 0 _

theorem fitsProbe_eq_true (e : Engine) (measure : List Char → ℚ)
    (words : List (List Char)) (cnt : ℕ) :
    fitsProbe e measure words cnt = true :=
  decide_eq_true (remainingHeight_nonneg _)

theorem advFits_eq_true (e : Engine) (measure : List Char → ℚ)
    (words : List (List Char)) (cnt : ℕ) :
    advFits e measure words cnt = true := by
  unfold advFits
  dsimp only
  have h := advRemainingHeight_nonneg
    { e with current := e.current ++ [⟨probeText words cnt, measure (probeText words cnt)⟩] }
  exact decide_eq_true (by linarith)

theorem binSearchGen_eval (fits : Nat → Bool) (hf : ∀ c, fits c = true) :
    ∀ (n : ℕ) (lo hi best : Int), (hi + 1 - lo).toNat ≤ n →
      binSearchGen fits lo hi best = if lo ≤ hi then hi else best := by
  intro n
  induction n with
  | zero =>
      intro lo hi best h
      have hlh : ¬ lo ≤ hi := by omega
      rw [binSearchGen, dif_neg hlh, if_neg hlh]
  | succ n ih =>
      intro lo hi best h
      by_cases hlh : lo ≤ hi
      · rw [binSearchGen, dif_pos hlh]
        simp only [hf, if_true]
        have hrec := ih ((lo + hi) / 2 + 1) hi ((lo + hi) / 2) (by omega)
        rw [hrec]
        split
        · rfl
        · omega
      · rw [binSearchGen, dif_neg hlh, if_neg hlh]

theorem binSearch_eval (e : Engine) (measure : List Char → ℚ)
    (words : List (List Char)) (lo hi best : Int) :
    binSearch e measure words lo hi best = if lo ≤ hi then hi else best :=
  binSearchGen_eval (fitsProbe e measure words)
    (fitsProbe_eq_true e measure words) (hi + 1 - lo).toNat lo hi best le_rfl

theorem advBinSearch_eval (e : Engine) (measure : List Char → ℚ)
    (words : List (List Char)) (lo hi best : Int) :
    advBinSearch e measure words lo hi best = if lo ≤ hi then hi else best :=
  binSearchGen_eval (advFits e measure words)
    (advFits_eq_true e measure words) (hi + 1 - lo).toNat lo hi best le_rfl

theorem flattenBlocks_addPage (e : Engine) :
    flattenBlocks (addPage e) = flattenBlocks e := by
  simp [flattenBlocks, addPage, pagesList]

theorem flattenBlocks_appendBlock (e : Engine) (b : Block) :
    flattenBlocks (appendBlock e b) = flattenBlocks e ++ [b] := by
  unfold appendBlock flattenBlocks pagesList
  dsimp only
  split
  · simp
  · simp

theorem flattenBlocks_advAppendBlock (e : Engine) (b : Block) :
    flattenBlocks (advAppendBlock e b) = flattenBlocks e ++ [b] := by
  unfold advAppendBlock flattenBlocks pagesList
  dsimp only
  split
  · simp
  · simp

/-! ## Word-sequence lemmas for paragraph splitting -/

theorem mem_takeWhile_eq_true (p : Char → Bool) (l : List Char) :
    ∀ c ∈ l.takeWhile p, p c = true := by
  induction l with
  | nil => intro c hc; simp [List.takeWhile] at hc
  | cons a t ih =>
      intro c hc
      rw [List.takeWhile_cons] at hc
      by_cases ha : p a
      · simp only [ha, if_true] at hc
        rcases List.mem_cons.mp hc with h | h
        · rw [h]; exact ha
        · exact ih c h
      · simp [ha] at hc

theorem takeWhile_append_all (p : Char → Bool) (w : List Char) (x : Char)
    (t : List Char) (h : ∀ c ∈ w, p c = true) (hx : p x = false) :
    (w ++ x :: t).takeWhile p = w := by
  induction w with
  | nil => simp [List.takeWhile_cons, hx]
  | cons a w ih =>
      rcases List.forall_mem_cons.mp h with ⟨ha, hw⟩
      simp [List.takeWhile_cons, ha, ih hw]

theorem dropWhile_append_all (p : Char → Bool) (w : List Char) (x : Char)
    (t : List Char) (h : ∀ c ∈ w, p c = true) (hx : p x = false) :
    (w ++ x :: t).dropWhile p = x :: t := by
  induction w with
  | nil => simp [List.dropWhile_cons, hx]
  | cons a w ih =>
      rcases List.forall_mem_cons.mp h with ⟨ha, hw⟩
      simpa [List.dropWhile_cons, ha] using ih hw

theorem jsSplitWs_wsFree :
    ∀ (n : ℕ) (l : List Char), l.length ≤ n →
      ∀ w ∈ jsSplitWs l, ∀ c ∈ w, isWs c = false := by
  intro n
  induction n with
  | zero =>
      intro l hl w hw c hc
      have : l = [] := List.length_eq_zero.mp (Nat.le_zero.mp hl)
      subst this
      rw [jsSplitWs_eq] at hw
      simp only [List.dropWhile_nil, List.takeWhile_nil] at hw
      rcases List.mem_singleton.mp hw with rfl
      simp at hc
  | succ n ih =>
      intro l hl w hw c hc
      rw [jsSplitWs_eq] at hw
      have hrl : (l.dropWhile (fun c => !isWs c)).length ≤ l.length :=
        length_dropWhile_le _ l
      rcases hrest : l.dropWhile (fun c => !isWs c) with _ | ⟨d, t⟩
      · rw [hrest] at hw
        rcases List.mem_singleton.mp hw with rfl
        have := mem_takeWhile_eq_true (fun c => !isWs c) l c hc
        simpa using this
      · rw [hrest] at hw
        rcases List.mem_cons.mp hw with rfl | hmem
        · have := mem_takeWhile_eq_true (fun c => !isWs c) l c hc
          simpa using this
        · have ht : t.length + 1 ≤ l.length := by
            rw [hrest] at hrl; simpa using hrl
          have htd : (t.dropWhile isWs).length ≤ t.length :=
            length_dropWhile_le isWs t
          exact ih (t.dropWhile isWs) (by omega) w hmem c hc

theorem splitWsFilter_wsFree (l : List Char) :
    ∀ w ∈ splitWsFilter l, ∀ c ∈ w, isWs c = false := by
  intro w hw
  have hw' : w ∈ jsSplitWs l := List.mem_of_mem_filter hw
  exact jsSplitWs_wsFree l.length l le_rfl w hw'

theorem splitWsFilter_dropWhile (l : List Char) :
    splitWsFilter (l.dropWhile isWs) = splitWsFilter l := by
  cases l with
  | nil => rfl
  | cons c t =>
      by_cases hc : isWs c
      · have hdrop : (c :: t).dropWhile isWs = t.dropWhile isWs := by
          rw [List.dropWhile_cons, if_pos hc]
        have hsplit : jsSplitWs (c :: t) = [] :: jsSplitWs (t.dropWhile isWs) := by
          rw [jsSplitWs_eq]
          have h1 : (c :: t).dropWhile (fun c => !isWs c) = c :: t := by
            rw [List.dropWhile_cons]
            simp [hc]
          have h2 : (c :: t).takeWhile (fun c => !isWs c) = [] := by
            rw [List.takeWhile_cons]
            simp [hc]
          rw [h1]
          simp only [h2]
        rw [hdrop]
        unfold splitWsFilter
        rw [hsplit]
        simp
      · have hdrop : (c :: t).dropWhile isWs = c :: t := by
          rw [List.dropWhile_cons, if_neg hc]
        rw [hdrop]

theorem splitWsFilter_cons_of_ws (c : Char) (l : List Char) (hc : isWs c = true) :
    splitWsFilter (c :: l) = splitWsFilter l := by
  have h1 := splitWsFilter_dropWhile (c :: l)
  have h2 := splitWsFilter_dropWhile l
  rw [List.dropWhile_cons, if_pos hc] at h1
  rw [← h1, ← h2]

theorem splitWsFilter_word_cons (w t : List Char) (hw : w ≠ [])
    (hfree : ∀ c ∈ w, isWs c = false) :
    splitWsFilter (w ++ ' ' :: t) = w :: splitWsFilter t := by
  have hp : ∀ c ∈ w, (fun c => !isWs c) c = true := by
    intro c hc; simp [hfree c hc]
  have hsp : (' ' : Char).isWhitespace = true := by decide
  have hx : (fun c => !isWs c) ' ' = false := by decide
  have hsplit : jsSplitWs (w ++ ' ' :: t) = w :: jsSplitWs (t.dropWhile isWs) := by
    rw [jsSplitWs_eq]
    rw [dropWhile_append_all _ w ' ' t hp hx]
    rw [takeWhile_append_all _ w ' ' t hp hx]
  unfold splitWsFilter
  rw [hsplit, List.filter_cons, if_pos (by simpa using hw)]
  have := splitWsFilter_dropWhile t
  unfold splitWsFilter at this
  rw [this]

theorem splitWsFilter_of_wsFree (l : List Char)
    (hfree : ∀ c ∈ l, isWs c = false) :
    splitWsFilter l = if l = [] then [] else [l] := by
  have hdrop : l.dropWhile (fun c => !isWs c) = [] := by
    rw [List.dropWhile_eq_nil_iff]
    intro c hc; simp [hfree c hc]
  have htake : l.takeWhile (fun c => !isWs c) = l := by
    rw [List.takeWhile_eq_self_iff]
    intro c hc; simp [hfree c hc]
  unfold splitWsFilter
  rw [jsSplitWs_eq, hdrop]
  simp only [htake]
  by_cases hl : l = []
  · subst hl; rfl
  · rw [List.filter_cons, if_pos (by simpa using hl)]
    simp [hl]

theorem splitWsFilter_joinWords (frags : List (List Char))
    (hfree : ∀ f ∈ frags, ∀ c ∈ f, isWs c = false) :
    splitWsFilter (joinWords frags) = frags.filter (· ≠ []) := by
  induction frags with
  | nil => rfl
  | cons f frags ih =>
      cases frags with
      | nil =>
          have : joinWords [f] = f := rfl
          rw [this]
          rw [splitWsFilter_of_wsFree f (hfree f (by simp))]
          by_cases hf : f = []
          · simp [hf]
          · simp [hf, List.filter_cons]
      | cons g t =>
          have hjoin : joinWords (f :: g :: t) = f ++ ' ' :: joinWords (g :: t) := rfl
          rw [hjoin]
          have ih' := ih (fun f hf c hc => hfree f (by simp [hf]) c hc)
          by_cases hf : f = []
          · subst hf
            simp only [List.nil_append]
            rw [splitWsFilter_cons_of_ws ' ' _ (by decide), ih']
            simp [List.filter_cons]
          · rw [splitWsFilter_word_cons f (joinWords (g :: t)) hf
              (hfree f (by simp)), ih']
            simp [List.filter_cons, hf]

theorem splitWsFilter_join_splitWsFilter (raw : List Char) :
    splitWsFilter (joinWords (splitWsFilter raw)) = splitWsFilter raw := by
  rw [splitWsFilter_joinWords (splitWsFilter raw) (splitWsFilter_wsFree raw)]
  apply List.filter_eq_self.mpr
  intro w hw
  have := List.of_mem_filter hw
  simpa using this

theorem splitWsFilter_join_jsSplitWs (raw : List Char) :
    splitWsFilter (joinWords (jsSplitWs raw)) = splitWsFilter raw := by
  rw [splitWsFilter_joinWords (jsSplitWs raw)
    (jsSplitWs_wsFree raw.length raw le_rfl)]
  rfl

theorem jsSplitWs_ne_nil (l : List Char) : jsSplitWs l ≠ [] := by
  rw [jsSplitWs_eq]
  rcases hrest : l.dropWhile (fun c => !isWs c) with _ | ⟨c, t⟩ <;> simp

/-! ## Evaluation of the paragraph operations -/

theorem appendTextParagraph_eval (e : Engine) (measure : List Char → ℚ)
    (rawText : List Char) (fuel : ℕ) (hw : splitWsFilter rawText ≠ []) :
    appendTextParagraph e measure rawText fuel =
      appendBlock (if remainingHeight e ≤ 0 then addPage e else e)
        ⟨joinWords (splitWsFilter rawText),
         measure (joinWords (splitWsFilter rawText))⟩ := by
  have hlen : 0 < (splitWsFilter rawText).length := List.length_pos.mpr hw
  have h1N : (1 : Int) ≤ ((splitWsFilter rawText).length : Int) := by
    exact_mod_cast hlen
  have hbs := binSearch_eval (if remainingHeight e ≤ 0 then addPage e else e)
    measure (splitWsFilter rawText) 1 ((splitWsFilter rawText).length : Int) 0
  rw [if_pos h1N] at hbs
  rw [appendTextParagraph]
  simp only [hw, if_false, hbs, Int.toNat_natCast, hlen, if_true,
    List.drop_length, probeText, List.take_length]

theorem advAppendTextParagraph_eval (e : Engine) (measure : List Char → ℚ)
    (rawText : List Char) (fuel : ℕ) :
    advAppendTextParagraph e measure rawText fuel =
      advAppendBlock (if advRemainingHeight e ≤ 0 then addPage e else e)
        ⟨joinWords (jsSplitWs rawText),
         measure (joinWords (jsSplitWs rawText))⟩ := by
  have hne := jsSplitWs_ne_nil rawText
  have hlen : 0 < (jsSplitWs rawText).length := List.length_pos.mpr hne
  have h0N : (0 : Int) ≤ ((jsSplitWs rawText).length : Int) := by positivity
  have hbs := advBinSearch_eval (if advRemainingHeight e ≤ 0 then addPage e else e)
    measure (jsSplitWs rawText) 0 ((jsSplitWs rawText).length : Int) 0
  rw [if_pos h0N] at hbs
  rw [advAppendTextParagraph.eq_def]
  simp only [hbs, Int.toNat_natCast, hlen, if_true, List.drop_length,
    probeText, List.take_length]
  have hrest : jsTrim (joinWords ([] : List (List Char))) = [] := rfl
  simp [hrest]

/-! ## Page-height invariant (amended) -/

/-- Outer height of the first block of a page (0 for an empty page). -/
def headHeight : List Block → ℚ
  | [] => 0
  | b :: _ => b.height

/-- Engine states reachable through completed `appendBlock` and
`appendTextParagraph` calls of `PaginationEngine`. -/
inductive Reachable (total : ℚ) : Engine → Prop
  | init : Reachable total (initEngine total)
  | block (e : Engine) (b : Block) :
      Reachable total e → Reachable total (appendBlock e b)
  | para (e : Engine) (measure : List Char → ℚ) (rawText : List Char) (fuel : ℕ) :
      Reachable total e → Reachable total (appendTextParagraph e measure rawText fuel)

/-- Per-page bound that the engine actually maintains: a page's accumulated
outer height never exceeds the larger of the content region's height and
the outer height of the page's first block. -/
def EngineInv (e : Engine) : Prop :=
  ∀ p ∈ pagesList e, sumHeights p ≤ max e.total (headHeight p)

theorem sumHeights_append (p : List Block) (b : Block) :
    sumHeights (p ++ [b]) = sumHeights p + b.height := by
  simp [sumHeights]

theorem EngineInv_addPage (e : Engine) (h : EngineInv e) :
    EngineInv (addPage e) := by
  intro p hp
  simp only [addPage, pagesList, List.append_assoc, List.mem_append,
    List.mem_singleton] at hp
  rcases hp with hp | hp | hp
  · exact h p (by simp [pagesList, hp])
  · exact h p (by simp [pagesList, hp])
  · subst hp
    simp [sumHeights, headHeight]

theorem EngineInv_appendBlock (e : Engine) (b : Block) (h : EngineInv e) :
    EngineInv (appendBlock e b) := by
  have hcur : sumHeights e.current ≤ max e.total (headHeight e.current) :=
    h e.current (by simp [pagesList])
  intro p hp
  unfold appendBlock at hp ⊢
  dsimp only at hp ⊢
  by_cases hc : b.height > remainingHeight { e with current := e.current ++ [b] } ∧
      1 < (e.current ++ [b]).length
  · rw [if_pos hc] at hp ⊢
    simp only [pagesList, List.append_assoc, List.mem_append,
      List.mem_singleton] at hp
    rcases hp with hp | hp | hp
    · exact h p (by simp [pagesList, hp])
    · exact h p (by simp [pagesList, hp])
    · subst hp
      simp [sumHeights, headHeight]
  · rw [if_neg hc] at hp ⊢
    simp only [pagesList, List.mem_append, List.mem_singleton] at hp
    rcases hp with hp | hp
    · exact h p (by simp [pagesList, hp])
    · subst hp
      rcases hcur0 : e.current with _ | ⟨a, t⟩
      · simp [sumHeights, headHeight]
      · have hlen : 1 < (e.current ++ [b]).length := by
          rw [hcur0]; simp
        have hble : ¬ b.height > remainingHeight { e with current := e.current ++ [b] } := by
          intro hgt; exact hc ⟨hgt, hlen⟩
        push_neg at hble
        rw [← hcur0]
        have hhead : headHeight (e.current ++ [b]) = headHeight e.current := by
          rw [hcur0]; rfl
        rw [sumHeights_append, hhead]
        by_cases hbneg : b.height ≤ 0
        · calc sumHeights e.current + b.height ≤ sumHeights e.current := by linarith
            _ ≤ max e.total (headHeight e.current) := hcur
        · push_neg at hbneg
          unfold remainingHeight at hble
          dsimp only at hble
          rw [sumHeights_append] at hble
          by_cases hX : e.total - (sumHeights e.current + b.height) - fontReadyMargin > 0
          · rw [if_pos hX] at hble
            have hfm : fontReadyMargin = 1/2 := rfl
            have : sumHeights e.current + b.height ≤ e.total := by
              rw [hfm] at hble; linarith
            exact le_trans this (le_max_left _ _)
          · rw [if_neg hX] at hble
            linarith

theorem EngineInv_appendTextParagraph (e : Engine) (measure : List Char → ℚ)
    (rawText : List Char) (fuel : ℕ) (h : EngineInv e) :
    EngineInv (appendTextParagraph e measure rawText fuel) := by
  by_cases hw : splitWsFilter rawText = []
  · have heq : appendTextParagraph e measure rawText fuel =
        appendBlock e ⟨nbspText, measure nbspText⟩ := by
      rw [appendTextParagraph]
      simp [hw]
    rw [heq]
    exact EngineInv_appendBlock e _ h
  · rw [appendTextParagraph_eval e measure rawText fuel hw]
    apply EngineInv_appendBlock
    split
    · exact EngineInv_addPage e h
    · exact h

/-- C1 (amended): after every completed `appendBlock` or
`appendTextParagraph` call, every page's accumulated outer height is at
most the maximum of the content region's available height and the outer
height of the page's first block; the bound of the original claim can be
exceeded only by a page whose first block alone exceeds the region height
(a single oversized block, per the engine's own overflow policy). -/
theorem pageHeight_invariant_amended (total : ℚ) (e : Engine)
    (h : Reachable total e) :
    ∀ p ∈ pagesList e, sumHeights p ≤ max e.total (headHeight p) := by
  induction h with
  | init =>
      intro p hp
      simp only [initEngine, pagesList, List.nil_append,
        List.mem_singleton] at hp
      subst hp
      simp [sumHeights, headHeight]
  | block e b _ ih => exact EngineInv_appendBlock e b ih
  | para e measure rawText fuel _ ih =>
      exact EngineInv_appendTextParagraph e measure rawText fuel ih

theorem pageHeight_invariant_amended_witness :
    [(⟨['x'], 20⟩ : Block)] ∈ pagesList (appendBlock (initEngine 10) ⟨['x'], 20⟩) ∧
    sumHeights [(⟨['x'], 20⟩ : Block)] ≤
      max (appendBlock (initEngine 10) ⟨['x'], 20⟩).total
        (headHeight [(⟨['x'], 20⟩ : Block)]) := by
  have happ : appendBlock (initEngine 10) ⟨['x'], 20⟩ =
      ⟨[], [⟨['x'], 20⟩], 10⟩ := by
    unfold appendBlock initEngine
    simp
  constructor
  · rw [happ]
    simp [pagesList]
  · exact pageHeight_invariant_amended 10 _ (Reachable.block _ _ Reachable.init)
      _ (by rw [happ]; simp [pagesList])

/-- C1 (counterexample to the claim as stated): a single `appendBlock` of a
block measuring 20 on a fresh engine whose content region is 10 high leaves
a page whose accumulated outer height 20 exceeds the available height 10. -/
theorem pageHeight_invariant_counterexample :
    pagesList (appendBlock (initEngine 10) ⟨['x'], 20⟩) = [[⟨['x'], 20⟩]] ∧
    ¬ sumHeights [(⟨['x'], 20⟩ : Block)] ≤ (initEngine 10).total := by
  constructor
  · have happ : appendBlock (initEngine 10) ⟨['x'], 20⟩ =
        ⟨[], [⟨['x'], 20⟩], 10⟩ := by
      unfold appendBlock initEngine
      simp
    rw [happ]
    rfl
  · simp [sumHeights, initEngine]
    norm_num

/-- C2: for every paragraph text, both engines' `appendTextParagraph` emit
block texts whose concatenated whitespace-delimited word sequences are
exactly the word sequence of the original text (in page order): no word is
split, dropped, duplicated or reordered. -/
theorem paragraph_words_preserved (e : Engine) (measure : List Char → ℚ)
    (rawText : List Char) (fuel : ℕ) :
    (∃ emitted : List Block,
      flattenBlocks (appendTextParagraph e measure rawText fuel) =
        flattenBlocks e ++ emitted ∧
      (emitted.map fun b => splitWsFilter b.text).flatten = splitWsFilter rawText) ∧
    (∃ emitted : List Block,
      flattenBlocks (advAppendTextParagraph e measure rawText fuel) =
        flattenBlocks e ++ emitted ∧
      (emitted.map fun b => splitWsFilter b.text).flatten = splitWsFilter rawText) := by
  constructor
  · by_cases hw : splitWsFilter rawText = []
    · refine ⟨[⟨nbspText, measure nbspText⟩], ?_, ?_⟩
      · have heq : appendTextParagraph e measure rawText fuel =
            appendBlock e ⟨nbspText, measure nbspText⟩ := by
          rw [appendTextParagraph]
          simp [hw]
        rw [heq, flattenBlocks_appendBlock]
      · rw [hw]
        have hnb : splitWsFilter nbspText = [] := by decide
        simp [hnb]
    · refine ⟨[⟨joinWords (splitWsFilter rawText),
        measure (joinWords (splitWsFilter rawText))⟩], ?_, ?_⟩
      · rw [appendTextParagraph_eval e measure rawText fuel hw,
          flattenBlocks_appendBlock]
        split
        · rw [flattenBlocks_addPage]
        · rfl
      · simp only [List.map_cons, List.map_nil, List.flatten]
        rw [splitWsFilter_join_splitWsFilter]
        simp
  · refine ⟨[⟨joinWords (jsSplitWs rawText),
      measure (joinWords (jsSplitWs rawText))⟩], ?_, ?_⟩
    · rw [advAppendTextParagraph_eval e measure rawText fuel,
        flattenBlocks_advAppendBlock]
      split
      · rw [flattenBlocks_addPage]
      · rfl
    · simp only [List.map_cons, List.map_nil, List.flatten]
      rw [splitWsFilter_join_jsSplitWs]
      simp

/-- C3: in both engines' `appendBlock`, a block is moved to a newly created
page only when the current page already holds at least one other block (the
vacated page keeps those blocks, and the new page holds exactly the moved
block); a block that is the sole content of its page always stays, and one
call creates at most one new page. -/
theorem appendBlock_move_policy (e : Engine) (b : Block) :
    (((appendBlock e b).prevPages = e.prevPages ∧
        (appendBlock e b).current = e.current ++ [b]) ∨
      (e.current ≠ [] ∧
        (appendBlock e b).prevPages = e.prevPages ++ [e.current] ∧
        (appendBlock e b).current = [b])) ∧
    (e.current = [] → appendBlock e b = { e with current := [b] }) ∧
    numPages (appendBlock e b) ≤ numPages e + 1 ∧
    (((advAppendBlock e b).prevPages = e.prevPages ∧
        (advAppendBlock e b).current = e.current ++ [b]) ∨
      (e.current ≠ [] ∧
        (advAppendBlock e b).prevPages = e.prevPages ++ [e.current] ∧
        (advAppendBlock e b).current = [b])) ∧
    (e.current = [] → advAppendBlock e b = { e with current := [b] }) ∧
    numPages (advAppendBlock e b) ≤ numPages e + 1 := by
  unfold appendBlock advAppendBlock
  dsimp only
  by_cases hc : b.height > remainingHeight { e with current := e.current ++ [b] } ∧
      1 < (e.current ++ [b]).length
  · rw [if_pos hc]
    have hne : e.current ≠ [] := by
      intro hnil
      rw [hnil] at hc
      simp at hc
    refine ⟨Or.inr ⟨hne, rfl, rfl⟩, fun hnil => absurd hnil hne, ?_, ?_, ?_, ?_⟩
    · simp [numPages, pagesList]
    · by_cases hc2 : b.height > advRemainingHeight { e with current := e.current ++ [b] } ∧
          1 < (e.current ++ [b]).length
      · rw [if_pos hc2]
        exact Or.inr ⟨hne, rfl, rfl⟩
      · rw [if_neg hc2]
        exact Or.inl ⟨rfl, rfl⟩
    · intro hnil; exact absurd hnil hne
    · by_cases hc2 : b.height > advRemainingHeight { e with current := e.current ++ [b] } ∧
          1 < (e.current ++ [b]).length
      · rw [if_pos hc2]
        simp [numPages, pagesList]
      · rw [if_neg hc2]
        simp [numPages, pagesList]
  · rw [if_neg hc]
    refine ⟨Or.inl ⟨rfl, rfl⟩, ?_, ?_, ?_, ?_, ?_⟩
    · intro hnil
      rw [hnil]
      rfl
    · simp [numPages, pagesList]
    · by_cases hc2 : b.height > advRemainingHeight { e with current := e.current ++ [b] } ∧
          1 < (e.current ++ [b]).length
      · rw [if_pos hc2]
        refine Or.inr ⟨?_, rfl, rfl⟩
        intro hnil
        rw [hnil] at hc2
        simp at hc2
      · rw [if_neg hc2]
        exact Or.inl ⟨rfl, rfl⟩
    · by_cases hc2 : b.height > advRemainingHeight { e with current := e.current ++ [b] } ∧
          1 < (e.current ++ [b]).length
      · rw [if_pos hc2]
        intro hnil
        rw [hnil] at hc2
        simp at hc2
      · rw [if_neg hc2]
        intro hnil
        rw [hnil]
        rfl
    · by_cases hc2 : b.height > advRemainingHeight { e with current := e.current ++ [b] } ∧
          1 < (e.current ++ [b]).length
      · rw [if_pos hc2]
        simp [numPages, pagesList]
      · rw [if_neg hc2]
        simp [numPages, pagesList]

theorem appendBlock_move_policy_witness :
    (initEngine 5).current = [] ∧
    appendBlock (initEngine 5) ⟨['x'], 2⟩ =
      { initEngine 5 with current := [⟨['x'], 2⟩] } :=
  ⟨rfl, (appendBlock_move_policy (initEngine 5) ⟨['x'], 2⟩).2.1 rfl⟩

/-- C10: because `remainingHeight()` is clamped to be non-negative and the
fit test of `PaginationEngine.appendTextParagraph` checks
`remainingHeight() >= 0`, the test succeeds at every probe count, the
binary search returns the full word count, the whole paragraph is appended
as a single block, and the recursive continuation (which would start a new
page for remaining words) is never taken — the result does not depend on
the recursion fuel. -/
theorem appendTextParagraph_always_fits (e : Engine) (measure : List Char → ℚ)
    (rawText : List Char) (fuel : ℕ) (hw : splitWsFilter rawText ≠ []) :
    (∀ cnt, fitsProbe (if remainingHeight e ≤ 0 then addPage e else e)
        measure (splitWsFilter rawText) cnt = true) ∧
    binSearch (if remainingHeight e ≤ 0 then addPage e else e) measure
        (splitWsFilter rawText) 1 ((splitWsFilter rawText).length : Int) 0 =
      ((splitWsFilter rawText).length : Int) ∧
    appendTextParagraph e measure rawText fuel =
      appendBlock (if remainingHeight e ≤ 0 then addPage e else e)
        ⟨joinWords (splitWsFilter rawText),
         measure (joinWords (splitWsFilter rawText))⟩ := by
  refine ⟨fun cnt => fitsProbe_eq_true _ _ _ _, ?_, appendTextParagraph_eval e measure rawText fuel hw⟩
  rw [binSearch_eval]
  rw [if_pos (by exact_mod_cast List.length_pos.mpr hw)]

theorem appendTextParagraph_always_fits_witness :
    splitWsFilter ['a'] ≠ [] ∧
    appendTextParagraph (initEngine 10) (fun _ => 3) ['a'] 0 =
      appendBlock
        (if remainingHeight (initEngine 10) ≤ 0 then addPage (initEngine 10)
         else initEngine 10)
        ⟨joinWords (splitWsFilter ['a']),
         (fun _ => (3 : ℚ)) (joinWords (splitWsFilter ['a']))⟩ :=
  ⟨by decide,
   (appendTextParagraph_always_fits (initEngine 10) (fun _ => 3) ['a'] 0
     (by decide)).2.2⟩

/-! ## Character classes and normalization

The classifier modules (`screenplay-line-classifier.ts`,
`scene-header-extractor.ts`, `dialogue-detector.ts`, `screenplay-parser.ts`,
`ruler.ts`) share a small set of character classes; regular expressions are
embedded as explicit scanners over `List Char`.  All of them are
kernel-computable (structural recursion; a fuel argument where the source
loop advances by a computed jump, with the wrapper supplying fuel that the
loop, which always advances by at least one, can never exhaust). -/

def arabicBlockChar (c : Char) : Bool :=
  0x600 ≤ c.toNat && c.toNat ≤ 0x6FF

/-- The class of `ARABIC_RANGE_RE = /[ء-ي]/`. -/
def arabicLetterChar (c : Char) : Bool :=
  0x621 ≤ c.toNat && c.toNat ≤ 0x64A

/-- The class of `SYRIAC_RANGE_RE = /[\u0700-\u074F]/`. -/
def syriacChar (c : Char) : Bool :=
  0x700 ≤ c.toNat && c.toNat ≤ 0x74F

/-- The class of `LATIN_RANGE_RE = /[A-Za-z]/`. -/
def latinChar (c : Char) : Bool :=
  (65 ≤ c.toNat && c.toNat ≤ 90) || (97 ≤ c.toNat && c.toNat ≤ 122)

def digitChar (c : Char) : Bool :=
  48 ≤ c.toNat && c.toNat ≤ 57

/-- Classes stripped by `stripTashkeel`
(`[\u0610-\u061A\u064B-\u065F\u06D6-\u06ED]`). -/
def tashkeelChar (c : Char) : Bool :=
  (0x610 ≤ c.toNat && c.toNat ≤ 0x61A) ||
  (0x64B ≤ c.toNat && c.toNat ≤ 0x65F) ||
  (0x6D6 ≤ c.toNat && c.toNat ≤ 0x6ED)

/-- Direction marks and BOM removed by `normalizeLine`
(`/\u200f|\u200e|\ufeff/g`). -/
def dirMarkChar (c : Char) : Bool :=
  c.toNat = 0x200F || c.toNat = 0x200E || c.toNat = 0xFEFF

/-- `easternToWesternDigits`, one character at a time. -/
def easternToWestern (c : Char) : Char :=
  if 0x660 ≤ c.toNat && c.toNat ≤ 0x669 then Char.ofNat (c.toNat - 0x660 + 48)
  else c

/-- Strip a trailing whitespace run (`replace(/\s+$/, '')`). -/
def stripTrailingWs (l : List Char) : List Char :=
  (l.reverse.dropWhile isWs).reverse

/-- `normalizeLine` of `screenplay-line-classifier.ts`: digit folding,
diacritic stripping, direction-mark removal, tab-to-space, and removal of
trailing whitespace. -/
def normalizeLine (l : List Char) : List Char :=
  let s1 := l.map easternToWestern
  let s2 := s1.filter (fun c => !tashkeelChar c)
  let s3 := s2.filter (fun c => !dirMarkChar c)
  let s4 := s3.map (fun c => if c = Char.ofNat 9 then ' ' else c)
  stripTrailingWs s4

/-- `isBlank` of the classifier: `!line || !line.trim()`. -/
def isBlank (l : List Char) : Bool := l.isEmpty || (jsTrim l).isEmpty

/-! ## Generic scanners (embedded regular-expression searches) -/

/-- Does `p` hold of some suffix?  Backbone of unanchored regex search. -/
def anySuffix (p : List Char → Bool) : List Char → Bool
  | [] => p []
  | c :: t => p (c :: t) || anySuffix p t

/-- JavaScript `string.includes(pat)`. -/
def containsSub (pat : List Char) (l : List Char) : Bool :=
  anySuffix (fun s => pat.isPrefixOf s) l

/-- Does `/w1\s+w2/` match at the start of `l`? -/
def startsSeqWs (w1 w2 : List Char) (l : List Char) : Bool :=
  w1.isPrefixOf l &&
    (let r := l.drop w1.length
     !(r.takeWhile isWs).isEmpty && w2.isPrefixOf (r.dropWhile isWs))

/-- Unanchored test of `/w1\s+w2/`. -/
def containsSeqWs (w1 w2 : List Char) (l : List Char) : Bool :=
  anySuffix (startsSeqWs w1 w2) l

/-- Anchored-to-end test of `w1\s+w2` (used inside `^...$` alternations). -/
def matchTwoWordsExact (w1 w2 : List Char) (t : List Char) : Bool :=
  w1.isPrefixOf t &&
    (let r := t.drop w1.length
     !(r.takeWhile isWs).isEmpty && r.dropWhile isWs = w2)

/-- ASCII-only lowering used for the `i` regex flag. -/
def asciiLower (c : Char) : Char :=
  if 65 ≤ c.toNat && c.toNat ≤ 90 then Char.ofNat (c.toNat + 32) else c

def eqCI (t s : List Char) : Bool :=
  t.map asciiLower = s.map asciiLower

/-- First alternative of `opts` that is a prefix of `l` (regex alternation;
all alternation lists used here are pairwise prefix-incompatible, so this
is exactly the backtracking behaviour). -/
def tryOpts (opts : List (List Char)) (l : List Char) : Option (List Char) :=
  opts.findSome? (fun o => if o.isPrefixOf l then some o else none)

/-- The text of the basmala (`'بسم الله الرحمن الرحيم'`). -/
def basmalaText : List Char := "بسم الله الرحمن الرحيم".data

/-- Consume `w` followed by at least one whitespace character. -/
def eatWordWs (w : List Char) (l : List Char) : Option (List Char) :=
  if w.isPrefixOf l then
    let r := l.drop w.length
    if (r.takeWhile isWs).isEmpty then none else some (r.dropWhile isWs)
  else none

/-- `BASMALA_RE = /^\s*بسم\s+الله\s+الرحمن\s+الرحيم\s*$/`. -/
def basmalaRE (l : List Char) : Bool :=
  let l0 := l.dropWhile isWs
  match eatWordWs "بسم".data l0 with
  | none => false
  | some r1 =>
    match eatWordWs "الله".data r1 with
    | none => false
    | some r2 =>
      match eatWordWs "الرحمن".data r2 with
      | none => false
      | some r3 =>
        ("الرحيم".data).isPrefixOf r3 && (r3.drop ("الرحيم".data).length).all isWs

/-! ## DialogueDetector (`dialogue-detector.ts`) -/

/-- `DialogueDetector`'s fixed common-word list. -/
def commonWordsDet : List (List Char) :=
  ["في", "على", "من", "إلى", "عند", "مع", "بعد", "قبل", "أمام", "خلف",
   "يقول", "تقول", "يفعل", "تفعل", "يذهب", "تذهب", "يأتي", "تأتي",
   "الذي", "التي", "هذا", "هذه", "ذلك", "تلك", "كان", "كانت",
   "يسير", "تسير", "يجلس", "تجلس", "يقف", "تقف", "ينظر", "تنظر",
   "أهلاً", "مرحباً", "نعم", "لا", "حسناً"].map String.data

/-- `DialogueDetector.containsCommonWords`. -/
def containsCommonWords (line : List Char) : Bool :=
  commonWordsDet.any (fun w => containsSub w line)

/-- `DialogueDetector.isLikelyAction`'s indicator list (verbatim, with the
source's duplicates). -/
def actionIndicatorsDet : List (List Char) :=
  ["يسير", "تسير", "يمشي", "تمشي", "يجري", "تجري",
   "يجلس", "تجلس", "يقف", "تقف", "ينظر", "تنظر",
   "يفتح", "تفتح", "يغلق", "تغلق", "يدخل", "تدخل",
   "يخرج", "تخرج", "يضع", "تضع", "يأخذ", "تأخذ",
   "تخرج", "يدخل", "تلتفت", "ينظر", "ترقد"].map String.data

def detIsLikelyAction (line : List Char) : Bool :=
  actionIndicatorsDet.any (fun ind => ind.isPrefixOf (jsTrim line))

/-- Character class of `/^([\u0600-\u06FF\s()]+)(:|：)/`. -/
def charClassParen (c : Char) : Bool :=
  arabicBlockChar c || isWs c || c = '(' || c = ')'

/-- Match `/^([\u0600-\u06FF\s()]+)(:|：)/` and return group 1.  A colon
is not in the class, so the greedy run is the unique candidate. -/
def charColonMatch (t : List Char) : Option (List Char) :=
  let run := t.takeWhile charClassParen
  if run.isEmpty then none
  else
    match (t.drop run.length).head? with
    | some c => if c = ':' || c = Char.ofNat 0xFF1A then some run else none
    | none => none

/-- `DialogueDetector.isCharacterName`: colon pattern (rejecting common
words in the name part), then the short-all-Arabic fallback. -/
def detIsCharacterName (line : List Char) : Bool :=
  let trimmed := jsTrim line
  let secondary :=
    decide ((splitWsFilter trimmed).length ≤ 3) &&
    decide (trimmed.length ≤ 30) &&
    (!trimmed.isEmpty && trimmed.all (fun c => arabicBlockChar c || isWs c)) &&
    !containsCommonWords trimmed &&
    !detIsLikelyAction trimmed
  match charColonMatch trimmed with
  | some run => if !containsCommonWords run then true else secondary
  | none => secondary

/-- `/^\(.*\)$/` on the string as given (no whitespace allowance). -/
def rawParenthetical (l : List Char) : Bool :=
  2 ≤ l.length && l.head? = some '(' && l.getLast? = some ')'

/-- `/^(مشهد|م\.)\s*(\d+)/` (scene prefix followed by digits). -/
def scenePrefixNum (l : List Char) : Bool :=
  match tryOpts ["مشهد".data, "م.".data] l with
  | none => false
  | some o => !(((l.drop o.length).dropWhile isWs).takeWhile digitChar).isEmpty

/-- `DialogueDetector.isTransition`. -/
def detIsTransition (l : List Char) : Bool :=
  containsSeqWs "قطع".data "إلى".data l || containsSeqWs "انتقال".data "إلى".data l ||
  containsSub "قطع.".data l || containsSub "انتقال".data l ||
  containsSeqWs "فيد".data "إلى".data l || containsSeqWs "فيد".data "من".data l ||
  containsSeqWs "تلاشي".data "إلى".data l || containsSeqWs "ذوبان".data "إلى".data l ||
  containsSub "انتهاء".data l || containsSub "النهاية".data l

/-- `DialogueDetector.isStructuralElement`. -/
def detIsStructural (l : List Char) : Bool :=
  scenePrefixNum l || detIsTransition l || detIsCharacterName l ||
  containsSub basmalaText l

/-- `DialogueDetector.isLikelyContinuation`. -/
def detIsLikelyContinuation (l : List Char) : Bool :=
  !detIsStructural l && !detIsLikelyAction l && decide (l.length < 200)

/-- Skip blank lines (`while (i < lines.length && !lines[i].trim()) i++`). -/
def skipBlanksGo : ℕ → List (List Char) → ℕ → ℕ
  | 0, _, i => i
  | fuel + 1, lines, i =>
    if h : i < lines.length then
      if (jsTrim (lines.get ⟨i, h⟩)).isEmpty then skipBlanksGo fuel lines (i + 1)
      else i
    else i

def skipBlanks (lines : List (List Char)) (i : ℕ) : ℕ :=
  skipBlanksGo (lines.length + 1) lines i

/-- The subsequent-line loop of `DialogueDetector.extractDialogueBlock`;
returns the parenthetical bucket, the dialogue bucket and the final index. -/
def dlgLoopGo : ℕ → List (List Char) → ℕ → List (List Char) → List (List Char) →
    List (List Char) × List (List Char) × ℕ
  | 0, _, i, pars, dlgs => (pars, dlgs, i)
  | fuel + 1, lines, i, pars, dlgs =>
    if h : i < lines.length then
      let line := jsTrim (lines.get ⟨i, h⟩)
      if line.isEmpty then
        let nn := skipBlanks lines (i + 1)
        if lines.length ≤ nn then (pars, dlgs, i)
        else
          let nnLine := jsTrim (lines.getD nn [])
          if detIsStructural nnLine then (pars, dlgs, i)
          else if detIsLikelyContinuation nnLine then dlgLoopGo fuel lines nn pars dlgs
          else (pars, dlgs, i)
      else if detIsStructural line then (pars, dlgs, i)
      else if rawParenthetical line then dlgLoopGo fuel lines (i + 1) (pars ++ [line]) dlgs
      else dlgLoopGo fuel lines (i + 1) pars (dlgs ++ [line])
    else (pars, dlgs, i)

structure DialogueBlock where
  characterName : List Char
  parentheticals : List (List Char)
  dialogueLines : List (List Char)
  startIndex : ℕ
  endIndex : ℕ
deriving DecidableEq

/-- `DialogueDetector.extractDialogueBlock`.  Note the source's
`if (colonMatch && colonMatch.index)`: a colon at index 0 is falsy, so the
whole line (colon included) becomes the character name. -/
def extractDialogueBlock (lines : List (List Char)) (startIndex : ℕ) :
    Option DialogueBlock :=
  if lines.length ≤ startIndex then none
  else
    let firstLine := jsTrim (lines.getD startIndex [])
    if !detIsCharacterName firstLine then none
    else
      let colonIdx := firstLine.findIdx? (fun c => c = ':' || c = Char.ofNat 0xFF1A)
      let split :=
        match colonIdx with
        | some i =>
            if i ≠ 0 then (jsTrim (firstLine.take i), jsTrim (firstLine.drop (i + 1)))
            else (firstLine, ([] : List Char))
        | none => (firstLine, ([] : List Char))
      let buckets :=
        if !split.2.isEmpty then
          if rawParenthetical split.2 then ([split.2], ([] : List (List Char)))
          else (([] : List (List Char)), [split.2])
        else (([] : List (List Char)), ([] : List (List Char)))
      let res := dlgLoopGo (lines.length + 1) lines (startIndex + 1) buckets.1 buckets.2
      some ⟨split.1, res.1, res.2.1, startIndex, res.2.2 - 1⟩

/-! ## SceneHeaderExtractor (`scene-header-extractor.ts`) -/

structure SceneHeaderParts where
  sceneNum : List Char
  timeLocation : List Char
  place : List Char
  consumedLines : ℕ
deriving DecidableEq

def inoutOpts : List (List Char) := ["داخلي", "خارجي", "د.", "خ."].map String.data

def timeOptsExt : List (List Char) :=
  ["ليل", "نهار", "ل.", "ن.", "صباح", "مساء", "فجر", "ظهر"].map String.data

def sepCharsExt : List Char := ['-', '–', '—', ':', '،']

def dashChars : List Char := ['-', '–', '—']

/-- `SEPARATOR_PATTERN = '[-–—:،]?\s*'` of the extractor. -/
def skipSepExt (l : List Char) : List Char :=
  match l with
  | c :: t => if c ∈ sepCharsExt then t.dropWhile isWs else (c :: t).dropWhile isWs
  | [] => []

/-- `\s*-?\s*` separator of the classifier's `TL_REGEX`. -/
def skipSepC (l : List Char) : List Char :=
  let l1 := l.dropWhile isWs
  match l1 with
  | c :: t => if c = '-' then t.dropWhile isWs else l1
  | [] => []

/-- Match `(INOUT sep TIME) | (TIME sep INOUT)` at the start of `l`,
returning the length of the matched span.  Alternatives are pairwise
prefix-incompatible and the separator is deterministic (INOUT/TIME words
start with Arabic letters, never whitespace or a separator), so the greedy
scan is exactly the regex behaviour. -/
def matchTLAt (tim : List (List Char)) (skipSep : List Char → List Char)
    (l : List Char) : Option ℕ :=
  let branch1 :=
    match tryOpts inoutOpts l with
    | some o1 =>
        let r1 := skipSep (l.drop o1.length)
        match tryOpts tim r1 with
        | some o2 => some (l.length - (r1.length - o2.length))
        | none => none
    | none => none
  match branch1 with
  | some n => some n
  | none =>
      match tryOpts tim l with
      | some o1 =>
          let r1 := skipSep (l.drop o1.length)
          match tryOpts inoutOpts r1 with
          | some o2 => some (l.length - (r1.length - o2.length))
          | none => none
      | none => none

/-- Leftmost search of the time/location pattern: `(start, length)`. -/
def searchTLGo (tim : List (List Char)) (skipSep : List Char → List Char) :
    List Char → ℕ → Option (ℕ × ℕ)
  | [], i => Option.map (fun n => (i, n)) (matchTLAt tim skipSep [])
  | c :: t, i =>
      match matchTLAt tim skipSep (c :: t) with
      | some n => some (i, n)
      | none => searchTLGo tim skipSep t (i + 1)

/-- `TIME_LOCATION_REGEX` search of the extractor. -/
def searchTLExt (l : List Char) : Option (ℕ × ℕ) :=
  searchTLGo timeOptsExt skipSepExt l 0

/-- JavaScript `str.replace(pat, '')` with a plain-string pattern:
remove the first occurrence. -/
def replaceFirst (pat : List Char) : List Char → List Char
  | [] => if pat.isPrefixOf ([] : List Char) then ([] : List Char).drop pat.length else []
  | c :: t =>
      if pat.isPrefixOf (c :: t) then (c :: t).drop pat.length
      else c :: replaceFirst pat t

/-- `replace(/\s+/g, ' ')`: each maximal whitespace run becomes a space. -/
def collapseWsGo (prevWs : Bool) : List Char → List Char
  | [] => []
  | c :: t =>
      if isWs c then
        if prevWs then collapseWsGo true t else ' ' :: collapseWsGo true t
      else c :: collapseWsGo false t

def collapseWs (l : List Char) : List Char := collapseWsGo false l

/-- `replace(/^\s*[-–—]?\s*/, '')` (the dash is optional, so leading
whitespace is always stripped). -/
def stripLeadDashOpt (l : List Char) : List Char :=
  let l1 := l.dropWhile isWs
  match l1 with
  | c :: t => if c ∈ dashChars then t.dropWhile isWs else l1
  | [] => []

/-- `replace(/^\s*-\s*/, '')` of the classifier (no dash, no match). -/
def stripLeadDashReq (l : List Char) : List Char :=
  let l1 := l.dropWhile isWs
  match l1 with
  | c :: t => if c = '-' then t.dropWhile isWs else l
  | [] => l

/-- `/^(مشهد|م\.)\s*(\d+)\s*[-–—]?\s*(.*)/` of the extractor (and of
`screenplay-parser.ts`): returns the matched prefix, the digits and the
rest of the line. -/
def extScenePrefixMatch (l : List Char) :
    Option (List Char × List Char × List Char) :=
  match tryOpts ["مشهد".data, "م.".data] l with
  | none => none
  | some p =>
      let r1 := (l.drop p.length).dropWhile isWs
      let digits := r1.takeWhile digitChar
      if digits.isEmpty then none
      else
        let r2 := (r1.drop digits.length).dropWhile isWs
        let r3 :=
          match r2 with
          | c :: t => if c ∈ dashChars then t.dropWhile isWs else r2
          | [] => []
        some (p, digits, r3)

/-- `SceneHeaderExtractor`'s common-word list (shorter than the
detector's). -/
def commonWordsExt : List (List Char) :=
  ["في", "على", "من", "إلى", "عند", "مع", "بعد", "قبل",
   "يقول", "تقول", "يفعل", "تفعل", "الذي", "التي"].map String.data

def extContainsCommonWords (line : List Char) : Bool :=
  commonWordsExt.any (fun w => containsSub w line)

/-- `SceneHeaderExtractor.isCharacterName` (colon required). -/
def extIsCharacterName (line : List Char) : Bool :=
  match charColonMatch (jsTrim line) with
  | some run => !extContainsCommonWords run
  | none => false

/-- `SceneHeaderExtractor.isLikelyAction`'s indicator list. -/
def actionIndicatorsExt : List (List Char) :=
  ["يسير", "تسير", "يمشي", "تمشي", "يجري", "تجري",
   "يجلس", "تجلس", "يقف", "تقف", "ينظر", "تنظر",
   "يفتح", "تفتح", "يغلق", "تغلق", "يدخل", "تدخل",
   "يخرج", "تخرج", "يضع", "تضع", "يأخذ", "تأخذ"].map String.data

def extIsLikelyAction (line : List Char) : Bool :=
  actionIndicatorsExt.any (fun ind => ind.isPrefixOf (jsTrim line))

/-- `SceneHeaderExtractor.isTransition` (includes `تلاشي من`). -/
def extIsTransition (l : List Char) : Bool :=
  containsSeqWs "قطع".data "إلى".data l || containsSeqWs "انتقال".data "إلى".data l ||
  containsSub "قطع.".data l || containsSub "انتقال".data l ||
  containsSeqWs "فيد".data "إلى".data l || containsSeqWs "فيد".data "من".data l ||
  containsSeqWs "تلاشي".data "إلى".data l || containsSeqWs "تلاشي".data "من".data l ||
  containsSeqWs "ذوبان".data "إلى".data l ||
  containsSub "انتهاء".data l || containsSub "النهاية".data l

/-- `SceneHeaderExtractor.isNewStructuralElement` (note: unlike the
classifier's loop it also counts likely-action lines as structural). -/
def extIsNewStructural (line : List Char) : Bool :=
  scenePrefixNum line || extIsTransition line || extIsCharacterName line ||
  containsSub basmalaText line || rawParenthetical line || extIsLikelyAction line

/-- Place-aggregation loop of `SceneHeaderExtractor.extractSceneHeaderParts`;
a blank (or structural) next line breaks the loop. -/
def extCollectGo : ℕ → List (List Char) → ℕ → List Char → ℕ → List Char × ℕ
  | 0, _, _, place, consumed => (place, consumed)
  | fuel + 1, lines, i, place, consumed =>
    if h : i < lines.length then
      let nextLine := jsTrim (lines.get ⟨i, h⟩)
      if nextLine.isEmpty || extIsNewStructural nextLine then (place, consumed)
      else
        let place' :=
          if place.isEmpty then nextLine else place ++ " – ".data ++ nextLine
        extCollectGo fuel lines (i + 1) place' (consumed + 1)
    else (place, consumed)

/-- `SceneHeaderExtractor.extractSceneHeaderParts`. -/
def extractSceneHeaderPartsExt (lines : List (List Char)) (startIndex : ℕ) :
    Option SceneHeaderParts :=
  if lines.length ≤ startIndex then none
  else
    let firstLine := jsTrim (lines.getD startIndex [])
    match extScenePrefixMatch firstLine with
    | none => none
    | some m =>
        let sceneNum := m.1 ++ [' '] ++ m.2.1
        let restOfLine := m.2.2
        let tp :=
          match searchTLExt restOfLine with
          | some r =>
              let matched := (restOfLine.drop r.1).take r.2
              (jsTrim (collapseWs (matched.map
                 (fun c => if c ∈ sepCharsExt then '-' else c))),
               jsTrim (stripLeadDashOpt (replaceFirst matched restOfLine)))
          | none => (([] : List Char), jsTrim restOfLine)
        let res := extCollectGo (lines.length + 1) lines (startIndex + 1) tp.2 1
        some ⟨sceneNum, tp.1, res.1, res.2⟩

/-! ## Line classifier (`screenplay-line-classifier.ts`) -/

/-- One global pass of `replace(/\s*-\s*/g, '-')`.  Each match consumes at
least the dash, so `l.length` fuel suffices. -/
def collapseDashGo : ℕ → List Char → List Char
  | 0, l => l
  | fuel + 1, l =>
    match l with
    | [] => []
    | c :: t =>
        if ((c :: t).dropWhile isWs).head? = some '-' then
          '-' :: collapseDashGo fuel ((((c :: t).dropWhile isWs).drop 1).dropWhile isWs)
        else c :: collapseDashGo fuel t

def collapseDash (l : List Char) : List Char := collapseDashGo l.length l

/-- `normalizeSeparators`: dashes and `,:،` to `-`, surrounding whitespace
folded into the dash, whitespace runs compressed, ends trimmed. -/
def normalizeSeparators (s : List Char) : List Char :=
  let s1 := s.map (fun c => if c = '–' || c = '—' then '-' else c)
  let s2 := s1.map (fun c => if c = ',' || c = ':' || c = '،' then '-' else c)
  let s3 := collapseDash s2
  let s4 := collapseWs s3
  jsTrim s4

/-- `SCENE_PREFIX_RE = /^\s*(?:مشهد|م\.)\s*([0-9]+)\s*(?:[-–—:،]\s*)?(.*)$/`:
returns the digits and the rest. -/
def cScenePrefixMatch (l : List Char) : Option (List Char × List Char) :=
  let l0 := l.dropWhile isWs
  match tryOpts ["مشهد".data, "م.".data] l0 with
  | none => none
  | some p =>
      let r1 := (l0.drop p.length).dropWhile isWs
      let digits := r1.takeWhile digitChar
      if digits.isEmpty then none
      else
        let r2 := (r1.drop digits.length).dropWhile isWs
        let r3 :=
          match r2 with
          | c :: t => if c ∈ sepCharsExt then t.dropWhile isWs else r2
          | [] => []
        some (digits, r3)

/-- `isBasmala` of the classifier. -/
def isBasmala (line : List Char) : Bool :=
  basmalaRE (normalizeLine line)

/-- `isSceneHeaderStart`. -/
def isSceneHeaderStart (line : List Char) : Bool :=
  (cScenePrefixMatch (normalizeLine line)).isSome

/-- `TIME_PART` of the classifier (more alternatives than the extractor). -/
def timeOptsC : List (List Char) :=
  (["ليل", "نهار", "ل.", "ن.", "صباح", "مساء", "فجر", "ظهر",
    "عصر", "مغرب", "الغروب", "الفجر"]).map String.data

/-- `TL_REGEX` search of the classifier. -/
def searchTLC (l : List Char) : Option (ℕ × ℕ) :=
  searchTLGo timeOptsC skipSepC l 0

structure ParsedHeader where
  sceneNum : List Char
  timeLocation : List Char
  placeInline : List Char
deriving DecidableEq

/-- `parseSceneHeaderFromLine`. -/
def parseSceneHeaderFromLine (rawLine : List Char) : Option ParsedHeader :=
  let line := normalizeSeparators (normalizeLine rawLine)
  match cScenePrefixMatch line with
  | none => none
  | some m =>
      let rest := m.2
      let tp :=
        match searchTLC rest with
        | some r =>
            let matched := (rest.drop r.1).take r.2
            (jsTrim (collapseDash matched),
             jsTrim (stripLeadDashReq (rest.drop (r.1 + r.2))))
        | none => (([] : List Char), jsTrim rest)
      some ⟨"مشهد ".data ++ m.1, tp.1, tp.2⟩

/-- `TRANSITION_RE` (anchored alternation; each alternative begins and ends
with a non-space character, so it holds exactly of the trimmed line). -/
def cTransitionCore (t : List Char) : Bool :=
  t = "قطع".data || matchTwoWordsExact "قطع".data "إلى".data t ||
  t = "إلى".data || t = "مزج".data || t = "ذوبان".data ||
  matchTwoWordsExact "خارج".data "المشهد".data t ||
  eqCI t "CUT TO:".data || eqCI t "FADE IN:".data || eqCI t "FADE OUT:".data

/-- `isTransition` of the classifier. -/
def isTransition (line : List Char) : Bool :=
  cTransitionCore (jsTrim (normalizeLine line))

/-- Tail `\s*:?\s*$` of `CHARACTER_RE`. -/
def wsColonWs (l : List Char) : Bool :=
  let l1 := l.dropWhile isWs
  l1.isEmpty || (l1.head? = some ':' && (l1.drop 1).all isWs)

/-- Core `[\u0600-\u06FF][\u0600-\u06FF\s]{0,40}\s*:?\s*$` with the
bounded-repetition backtracking made explicit. -/
def charREcore (l : List Char) : Bool :=
  match l with
  | [] => false
  | c :: t =>
      arabicBlockChar c &&
      (List.range (min 40 t.length + 1)).any (fun k =>
        ((t.take k).all (fun d => arabicBlockChar d || isWs d)) &&
        wsColonWs (t.drop k))

/-- `CHARACTER_RE = /^\s*(?:صوت\s+)?[...][...\s]{0,40}\s*:?\s*$/`. -/
def characterRE (l : List Char) : Bool :=
  let l1 := l.dropWhile isWs
  (("صوت".data).isPrefixOf l1 &&
    (let r := l1.drop ("صوت".data).length
     !(r.takeWhile isWs).isEmpty && charREcore (r.dropWhile isWs))) ||
  charREcore l1

/-- `isCharacterLine` of the classifier. -/
def isCharacterLine (line : List Char) : Bool :=
  let s := normalizeLine line
  if isSceneHeaderStart s then false
  else if isTransition s then false
  else characterRE s

/-- `isParenthetical` of the classifier
(`PARENTHETICAL_RE = /^\s*\(.*?\)\s*$/`): first non-space is `(` and last
non-space is `)`. -/
def isParentheticalC (line : List Char) : Bool :=
  let u := jsTrim (normalizeLine line)
  2 ≤ u.length && u.head? = some '(' && u.getLast? = some ')'

/-- `trimLooseParens`. -/
def trimLooseParens (s : List Char) : List Char :=
  let t := jsTrim s
  let t1 :=
    match t with
    | '(' :: r => r.dropWhile isWs
    | _ => t
  let t2 :=
    match t1.reverse with
    | ')' :: r => (r.dropWhile isWs).reverse
    | _ => t1
  jsTrim t2

/-- `isLikelyParentheticalSemantics`. -/
def isLikelyParentheticalSemantics (raw : List Char) : Bool :=
  let t := trimLooseParens (normalizeLine raw)
  !t.isEmpty &&
  decide (t.length ≤ 45) &&
  !(t.any (fun c => c = '؟' || c = '!' || c = '…')) &&
  !(t.any (fun c => latinChar c || syriacChar c))

/-- Place aggregation loop of the classifier's
`extractSceneHeaderParts`: blank lines are consumed and skipped; only a
scene header, transition, character line, parenthetical or basmala stops
the loop.  Returns the accumulated place and the count of extra lines. -/
def collectPlaceGo : ℕ → List (List Char) → ℕ → List Char → List Char × ℕ
  | 0, _, _, place => (place, 0)
  | fuel + 1, lines, i, place =>
    if i < lines.length then
      let next := normalizeLine (lines.getD i [])
      if isBlank next then
        let r := collectPlaceGo fuel lines (i + 1) place
        (r.1, r.2 + 1)
      else if isSceneHeaderStart next || isTransition next || isCharacterLine next ||
          isParentheticalC next || isBasmala next then
        (place, 0)
      else
        let normalizedNext := jsTrim (stripLeadDashReq (normalizeSeparators next))
        let place' :=
          if normalizedNext.isEmpty then place
          else if place.isEmpty then normalizedNext
          else place ++ " – ".data ++ normalizedNext
        let r := collectPlaceGo fuel lines (i + 1) place'
        (r.1, r.2 + 1)
    else (place, 0)

/-- `extractSceneHeaderParts` of the classifier. -/
def extractSceneHeaderPartsC (lines : List (List Char)) (startIndex : ℕ) :
    Option SceneHeaderParts :=
  match parseSceneHeaderFromLine (lines.getD startIndex []) with
  | none => none
  | some p =>
      let r := collectPlaceGo (lines.length + 1) lines (startIndex + 1) p.placeInline
      some ⟨p.sceneNum, p.timeLocation, jsTrim r.1, 1 + r.2⟩

/-! ## Document classifier (`classifyDocument`) -/

structure DialogueEntry where
  character : List Char
  text : List Char
  isTranslation : Bool
  lang : List Char
deriving DecidableEq

inductive DlgCtx where
  | syriac
  | translation
deriving DecidableEq

structure ExtractResult where
  basmala : Option (List Char) := none
  sceneHeader1 : List (List Char) := []
  sceneHeader2 : List (List Char) := []
  sceneHeader3 : List (List Char) := []
  action : List (List Char) := []
  character : List (List Char) := []
  parenthetical : List (List Char) := []
  dialogue : List DialogueEntry := []
  transition : List (List Char) := []
deriving DecidableEq

/-- JavaScript truthiness of the `currentCharacter` variable
(`null` and the empty string are falsy). -/
def ccActive : Option (List Char) → Bool
  | some cc => !cc.isEmpty
  | none => false

/-- The loose paren test `/^[\s]*\(|\)[\s]*$/` of branch 5. -/
def parenLoose (line : List Char) : Bool :=
  ((line.dropWhile isWs).head? = some '(') ||
  ((line.reverse.dropWhile isWs).head? = some ')')

/-- `raw.replace(/:\s*$/, '')`. -/
def stripTrailingColonWs (raw : List Char) : List Char :=
  let r := raw.reverse
  let r1 := r.dropWhile isWs
  match r1 with
  | ':' :: rest => rest.reverse
  | _ => raw

/-- One forward scan of `classifyDocument`, with the loop index made
explicit.  The index grows by at least one per iteration (scene headers
consume `consumedLines ≥ 1` lines), so the wrapper's fuel is never
exhausted.  The branch chain after the scene-header test appears twice
because the source falls through to it when `extractSceneHeaderParts`
returns null. -/
def classifyGo : ℕ → List (List Char) → ℕ → ExtractResult →
    Option (List Char) → Option DlgCtx → ExtractResult
  | 0, _, _, out, _, _ => out
  | fuel + 1, lines, idx, out, currentCharacter, lastDialogueContext =>
    if idx < lines.length then
      let raw := lines.getD idx []
      let line := normalizeLine raw
      if isBlank line then classifyGo fuel lines (idx + 1) out none none
      else if isBasmala line then
        classifyGo fuel lines (idx + 1)
          { out with basmala := some (jsTrim raw) } none none
      else if isSceneHeaderStart line then
        match extractSceneHeaderPartsC lines idx with
        | some parts =>
            classifyGo fuel lines (idx + parts.consumedLines)
              { out with
                sceneHeader1 := out.sceneHeader1 ++ [parts.sceneNum],
                sceneHeader2 :=
                  if parts.timeLocation.isEmpty then out.sceneHeader2
                  else out.sceneHeader2 ++ [parts.timeLocation],
                sceneHeader3 :=
                  if parts.place.isEmpty then out.sceneHeader3
                  else out.sceneHeader3 ++ [parts.place] }
              none none
        | none =>
            if isTransition line then
              classifyGo fuel lines (idx + 1)
                { out with transition := out.transition ++ [jsTrim raw] } none none
            else if isCharacterLine line then
              let name := jsTrim (stripTrailingColonWs raw)
              classifyGo fuel lines (idx + 1)
                { out with character := out.character ++ [name] } (some name) none
            else
              let isParen := isParentheticalC line || parenLoose line
              let looksArabic := line.any arabicLetterChar && !line.any syriacChar
              if isParen && ccActive currentCharacter &&
                  (lastDialogueContext = some DlgCtx.syriac ||
                   lastDialogueContext = some DlgCtx.translation) && looksArabic then
                classifyGo fuel lines (idx + 1)
                  { out with dialogue := out.dialogue ++
                      [⟨currentCharacter.getD [], trimLooseParens raw, true, "ar".data⟩] }
                  currentCharacter (some DlgCtx.translation)
              else if isParen && isLikelyParentheticalSemantics raw then
                classifyGo fuel lines (idx + 1)
                  { out with parenthetical := out.parenthetical ++ [jsTrim raw] }
                  currentCharacter lastDialogueContext
              else if ccActive currentCharacter then
                let hasSyriac := line.any syriacChar
                classifyGo fuel lines (idx + 1)
                  { out with dialogue := out.dialogue ++
                      [⟨currentCharacter.getD [], jsTrim raw, false,
                        if hasSyriac then "syc".data else "ar".data⟩] }
                  currentCharacter (if hasSyriac then some DlgCtx.syriac else none)
              else
                classifyGo fuel lines (idx + 1)
                  { out with action := out.action ++ [jsTrim raw] } none none
      else if isTransition line then
        classifyGo fuel lines (idx + 1)
          { out with transition := out.transition ++ [jsTrim raw] } none none
      else if isCharacterLine line then
        let name := jsTrim (stripTrailingColonWs raw)
        classifyGo fuel lines (idx + 1)
          { out with character := out.character ++ [name] } (some name) none
      else
        let isParen := isParentheticalC line || parenLoose line
        let looksArabic := line.any arabicLetterChar && !line.any syriacChar
        if isParen && ccActive currentCharacter &&
            (lastDialogueContext = some DlgCtx.syriac ||
             lastDialogueContext = some DlgCtx.translation) && looksArabic then
          classifyGo fuel lines (idx + 1)
            { out with dialogue := out.dialogue ++
                [⟨currentCharacter.getD [], trimLooseParens raw, true, "ar".data⟩] }
            currentCharacter (some DlgCtx.translation)
        else if isParen && isLikelyParentheticalSemantics raw then
          classifyGo fuel lines (idx + 1)
            { out with parenthetical := out.parenthetical ++ [jsTrim raw] }
            currentCharacter lastDialogueContext
        else if ccActive currentCharacter then
          let hasSyriac := line.any syriacChar
          classifyGo fuel lines (idx + 1)
            { out with dialogue := out.dialogue ++
                [⟨currentCharacter.getD [], jsTrim raw, false,
                  if hasSyriac then "syc".data else "ar".data⟩] }
            currentCharacter (if hasSyriac then some DlgCtx.syriac else none)
        else
          classifyGo fuel lines (idx + 1)
            { out with action := out.action ++ [jsTrim raw] } none none
    else out

/-- `classifyDocument`. -/
def classifyDocument (lines : List (List Char)) : ExtractResult :=
  classifyGo (lines.length + 1) lines 0 {} none none

/-! ## Content analyzer (`ruler.ts`, standalone `analyzeContent`) -/

inductive ElementKind where
  | basmala
  | sceneHeader
  | action
  | dialogue
  | transition
deriving DecidableEq

structure ScreenplayElementR where
  type : ElementKind
  content : List Char
  lines : List (List Char)
deriving DecidableEq

/-- `text.replace(/\r\n?/g, '\n')`. -/
def crlfToLf : List Char → List Char
  | [] => []
  | c1 :: c2 :: t =>
      if c1 = Char.ofNat 13 then
        if c2 = Char.ofNat 10 then Char.ofNat 10 :: crlfToLf t
        else Char.ofNat 10 :: crlfToLf (c2 :: t)
      else c1 :: crlfToLf (c2 :: t)
  | [c] => if c = Char.ofNat 13 then [Char.ofNat 10] else [c]

/-- JavaScript `str.split('\n')`. -/
def splitNl : List Char → List (List Char)
  | [] => [[]]
  | c :: t =>
      if c = Char.ofNat 10 then [] :: splitNl t
      else
        match splitNl t with
        | [] => [[c]]
        | f :: rest => (c :: f) :: rest

/-- JavaScript `parts.join('\n')`. -/
def joinNl : List (List Char) → List Char
  | [] => []
  | [w] => w
  | w :: ws => w ++ Char.ofNat 10 :: joinNl ws

/-- `isTransition` of the analyzer:
`/^(?:\s*(?:قطع|انتقال|فيد|ذوبان|تلاشي|النهاية|انتهاء).*)$/i`. -/
def rIsTransition (l : List Char) : Bool :=
  (["قطع", "انتقال", "فيد", "ذوبان", "تلاشي", "النهاية", "انتهاء"].map String.data).any
    (fun w => w.isPrefixOf (l.dropWhile isWs))

/-- Tail `\s*:\s*$` (colon required). -/
def wsColonReqWs (l : List Char) : Bool :=
  let l1 := l.dropWhile isWs
  l1.head? = some ':' && (l1.drop 1).all isWs

/-- `isCharacterName` of the analyzer:
`/^\s*[\u0600-\u06FF][\u0600-\u06FF\s]{0,40}\s*:\s*$/`. -/
def rIsCharacterName (l : List Char) : Bool :=
  match l.dropWhile isWs with
  | [] => false
  | c :: t =>
      arabicBlockChar c &&
      (List.range (min 40 t.length + 1)).any (fun k =>
        ((t.take k).all (fun d => arabicBlockChar d || isWs d)) &&
        wsColonReqWs (t.drop k))

/-- `isParenthetical` of the analyzer: `/^\s*\(.*\)\s*$/`. -/
def rIsParenthetical (l : List Char) : Bool :=
  let u := jsTrim l
  2 ≤ u.length && u.head? = some '(' && u.getLast? = some ')'

/-- `isNewElement` of the analyzer. -/
def rIsNewElement (l : List Char) : Bool :=
  l.isEmpty || basmalaRE l || scenePrefixNum l || rIsTransition l ||
  rIsCharacterName l

/-- Dialogue-collection loop of the analyzer. -/
def rCollectDialogueGo : ℕ → List (List Char) → ℕ → List (List Char) × ℕ
  | 0, _, i => ([], i)
  | fuel + 1, lines, i =>
    if i + 1 < lines.length then
      let nextLine := jsTrim (lines.getD (i + 1) [])
      if !nextLine.isEmpty && !rIsNewElement nextLine then
        let r := rCollectDialogueGo fuel lines (i + 1)
        (nextLine :: r.1, r.2)
      else ([], i)
    else ([], i)

/-- The scan of `analyzeContent`. -/
def analyzeGo : ℕ → List (List Char) → ℕ → List ScreenplayElementR
  | 0, _, _ => []
  | fuel + 1, lines, i =>
    if i < lines.length then
      let trimmed := jsTrim (lines.getD i [])
      if trimmed.isEmpty then
        ⟨ElementKind.action, [], [[]]⟩ :: analyzeGo fuel lines (i + 1)
      else if basmalaRE trimmed then
        ⟨ElementKind.basmala, trimmed, [trimmed]⟩ :: analyzeGo fuel lines (i + 1)
      else if scenePrefixNum trimmed then
        if i + 1 < lines.length then
          let nextLine := jsTrim (lines.getD (i + 1) [])
          if !nextLine.isEmpty && !rIsNewElement nextLine then
            ⟨ElementKind.sceneHeader, trimmed ++ Char.ofNat 10 :: nextLine,
              [trimmed, nextLine]⟩ :: analyzeGo fuel lines (i + 2)
          else
            ⟨ElementKind.sceneHeader, trimmed, [trimmed]⟩ :: analyzeGo fuel lines (i + 1)
        else
          ⟨ElementKind.sceneHeader, trimmed, [trimmed]⟩ :: analyzeGo fuel lines (i + 1)
      else if rIsTransition trimmed then
        ⟨ElementKind.transition, trimmed, [trimmed]⟩ :: analyzeGo fuel lines (i + 1)
      else if rIsCharacterName trimmed then
        let r := rCollectDialogueGo (lines.length + 1) lines i
        ⟨ElementKind.dialogue, joinNl (trimmed :: r.1), trimmed :: r.1⟩ ::
          analyzeGo fuel lines (r.2 + 1)
      else if rIsParenthetical trimmed then
        ⟨ElementKind.action, trimmed, [trimmed]⟩ :: analyzeGo fuel lines (i + 1)
      else
        ⟨ElementKind.action, trimmed, [trimmed]⟩ :: analyzeGo fuel lines (i + 1)
    else []

/-- `analyzeContent` of `ruler.ts` (standalone variant). -/
def analyzeContent (text : List Char) : List ScreenplayElementR :=
  analyzeGo ((splitNl (crlfToLf text)).length + 1) (splitNl (crlfToLf text)) 0

/-! ## HTML formatter (`screenplay-parser.ts`, `parseAndFormat`) -/

/-- HTML escaping as performed by `div.textContent = s; div.innerHTML`
(ampersand, angle brackets and no-break space). -/
def escapeHtml : List Char → List Char
  | [] => []
  | c :: t =>
      (if c = '&' then "&amp;".data
       else if c = '<' then "&lt;".data
       else if c = '>' then "&gt;".data
       else if c = Char.ofNat 0xA0 then "&nbsp;".data
       else [c]) ++ escapeHtml t

/-- `styleObjectToString(formatStyles.action)`. -/
def actionStyle : List Char :=
  "text-align: right; margin: 1rem 0; font-size: 12pt; line-height: 1.5; font-family: var(--font-arabic), Times New Roman, serif".data

/-- `styleObjectToString(formatStyles.basmala)`. -/
def basmalaStyle : List Char :=
  "text-align: left; margin: 0 0 2rem 0; font-weight: bold; font-size: 14pt; font-family: var(--font-arabic), Times New Roman, serif".data

/-- `styleObjectToString(formatStyles.transition)`. -/
def transitionStyle : List Char :=
  "text-align: center; font-weight: bold; text-transform: uppercase; margin: 1rem 0; font-size: 12pt; font-family: var(--font-arabic), Times New Roman, serif".data

/-- `styleObjectToString(formatStyles.character)`. -/
def characterStyle : List Char :=
  "text-align: center; font-weight: bold; text-transform: uppercase; margin: 1rem auto 0 auto; width: 2.5in; font-size: 12pt; font-family: var(--font-arabic), Times New Roman, serif".data

/-- `styleObjectToString(formatStyles.parenthetical)`. -/
def parentheticalStyle : List Char :=
  "text-align: center; font-style: italic; margin: 0 auto; width: 2.0in; font-size: 11pt; font-family: var(--font-arabic), Times New Roman, serif".data

/-- `styleObjectToString(formatStyles.dialogue)`. -/
def dialogueStyle : List Char :=
  "text-align: center; margin: 0 auto 0.3rem auto; width: 2.5in; line-height: 1.2; font-size: 12pt; font-family: var(--font-arabic), Times New Roman, serif".data

/-- `styleObjectToString(formatStyles['scene-header-top-line'])`. -/
def sceneHeaderTopLineStyle : List Char :=
  "display: flex; justify-content: space-between; width: 100%; margin: 1rem 0 0.5rem 0; font-weight: bold; font-size: 12pt; font-family: var(--font-arabic), Times New Roman, serif".data

/-- `styleObjectToString(formatStyles['scene-header-3'])`. -/
def sceneHeader3Style : List Char :=
  "text-align: center; font-weight: bold; margin: 0 0 1rem 0; font-size: 12pt; font-family: var(--font-arabic), Times New Roman, serif".data

/-- `<div style="...">content</div>`. -/
def divWith (style content : List Char) : List Char :=
  "<div style=\"".data ++ style ++ "\">".data ++ content ++ "</div>".data

/-- The placeholder emitted for a blank line. -/
def blankActionDiv : List Char :=
  "<div style=\"".data ++ actionStyle ++ "\"><br></div>".data

/-- `isTransition` of `screenplay-parser.ts` (same pattern list as the
extractor's). -/
def parserIsTransition (l : List Char) : Bool :=
  extIsTransition l

/-- The parser's inline time/location regex
`/(داخلي|خارجي|د\.|خ\.)\s*[-–—]?\s*(ليل|نهار|ل\.|ن\.|صباح|مساء|فجر|ظهر)/i`
(IN/OUT first only). -/
def matchParserTLAt (l : List Char) : Option ℕ :=
  match tryOpts inoutOpts l with
  | some o1 =>
      let r1 := stripLeadDashOpt (l.drop o1.length)
      match tryOpts timeOptsExt r1 with
      | some o2 => some (l.length - (r1.length - o2.length))
      | none => none
  | none => none

def searchTL1Go : List Char → ℕ → Option (ℕ × ℕ)
  | [], i => Option.map (fun n => (i, n)) (matchParserTLAt [])
  | c :: t, i =>
      match matchParserTLAt (c :: t) with
      | some n => some (i, n)
      | none => searchTL1Go t (i + 1)

def searchTL1 (l : List Char) : Option (ℕ × ℕ) := searchTL1Go l 0

/-- The scene-header HTML template of `parseAndFormat` (whitespace as in
the source's template literal). -/
def sceneHtmlChunk (sceneNum timeLocation place : List Char) : List Char :=
  "\n          <div>\n            <div style=\"".data ++ sceneHeaderTopLineStyle ++
  "\">\n              <span>".data ++ escapeHtml sceneNum ++
  "</span>\n              <span>".data ++ escapeHtml timeLocation ++
  "</span>\n            </div>\n            <div style=\"".data ++ sceneHeader3Style ++
  "\">".data ++ escapeHtml place ++ "</div>\n          </div>".data

/-- The loop of `parseAndFormat`. -/
def pfGo : ℕ → List (List Char) → ℕ → List Char
  | 0, _, _ => []
  | fuel + 1, lines, i =>
    if i < lines.length then
      let line := jsTrim (lines.getD i [])
      if line.isEmpty then blankActionDiv ++ pfGo fuel lines (i + 1)
      else if containsSub basmalaText line then
        divWith basmalaStyle (escapeHtml line) ++ pfGo fuel lines (i + 1)
      else
        match extScenePrefixMatch line with
        | some m =>
            let sceneNum := m.1 ++ [' '] ++ m.2.1
            let restOfLine := m.2.2
            let tp :=
              match searchTL1 restOfLine with
              | some r =>
                  ((restOfLine.drop r.1).take r.2,
                   jsTrim (stripLeadDashOpt
                     (replaceFirst ((restOfLine.drop r.1).take r.2) restOfLine)))
              | none => (([] : List Char), restOfLine)
            if tp.2.isEmpty && i + 1 < lines.length &&
                !(jsTrim (lines.getD (i + 1) [])).isEmpty &&
                !scenePrefixNum (jsTrim (lines.getD (i + 1) [])) &&
                !detIsCharacterName (jsTrim (lines.getD (i + 1) [])) &&
                !parserIsTransition (jsTrim (lines.getD (i + 1) [])) then
              sceneHtmlChunk sceneNum tp.1 (jsTrim (lines.getD (i + 1) [])) ++
                pfGo fuel lines (i + 2)
            else
              sceneHtmlChunk sceneNum tp.1 tp.2 ++ pfGo fuel lines (i + 1)
        | none =>
            if detIsCharacterName line then
              match extractDialogueBlock lines i with
              | some blk =>
                  "<div>".data ++ divWith characterStyle (escapeHtml blk.characterName) ++
                  (blk.parentheticals.map
                    (fun p => divWith parentheticalStyle (escapeHtml p))).flatten ++
                  (blk.dialogueLines.map
                    (fun d => divWith dialogueStyle (escapeHtml d))).flatten ++
                  "</div>".data ++ pfGo fuel lines (blk.endIndex + 1)
              | none => divWith actionStyle (escapeHtml line) ++ pfGo fuel lines (i + 1)
            else if parserIsTransition line then
              divWith transitionStyle (escapeHtml line) ++ pfGo fuel lines (i + 1)
            else
              divWith actionStyle (escapeHtml line) ++ pfGo fuel lines (i + 1)
    else []

/-- `parseAndFormat` (`if (!text) return '';` then the line loop). -/
def parseAndFormat (text : List Char) : List Char :=
  if text.isEmpty then []
  else pfGo ((splitNl text).length + 1) (splitNl text) 0

/-! ## Claim C4: the round-trip input, evaluated on the code -/

/-- C4 (code evaluated at the failing input): on
`["مشهد 1 - داخلي-نهار – قصر", "أحمد يجلس."]` both scene-header extractors
absorb the action sentence `"أحمد يجلس."` into `place` (it matches none of
their structural-line predicates), returning `consumedLines = 2` and
`place = "قصر – أحمد يجلس."` instead of the `consumedLines = 1`,
`place = "قصر"` required by the specification and by the extractor's own
unit tests. -/
theorem sceneHeader_roundTrip_eval :
    extractSceneHeaderPartsExt ["مشهد 1 - داخلي-نهار – قصر".data, "أحمد يجلس.".data] 0 =
      some ⟨"مشهد 1".data, "داخلي-نهار".data, "قصر – أحمد يجلس.".data, 2⟩ ∧
    extractSceneHeaderPartsC ["مشهد 1 - داخلي-نهار – قصر".data, "أحمد يجلس.".data] 0 =
      some ⟨"مشهد 1".data, "داخلي-نهار".data, "قصر – أحمد يجلس.".data, 2⟩ := by
  constructor
  · decide
  · decide

/-! ## Claim C7: common words versus the character-name predicates -/

/-- C7 (counterexample to the claim as stated): the classifier's
character-name predicate `isCharacterLine` performs no common-word check
and accepts `"مع أحمد"` although it contains the fixed common word `"مع"`,
is at most 3 words and 30 characters long, and consists only of Arabic
letters and spaces. -/
theorem commonWord_isCharacterLine_counterexample :
    isCharacterLine ("مع أحمد".data) = true ∧
    "مع".data ∈ commonWordsDet ∧
    containsSub "مع".data ("مع أحمد".data) = true ∧
    ("مع أحمد".data).length ≤ 30 ∧
    (splitWsFilter ("مع أحمد".data)).length ≤ 3 ∧
    ("مع أحمد".data).all (fun c => arabicBlockChar c || c = ' ') = true := by
  refine ⟨by decide, by decide, by decide, by decide, by decide, by decide⟩

theorem mem_jsTrim_subset (l : List Char) : ∀ c ∈ jsTrim l, c ∈ l := by
  intro c hc
  unfold jsTrim at hc
  rw [List.mem_reverse] at hc
  have h1 := (List.dropWhile_suffix isWs
    (l := (l.dropWhile isWs).reverse)).sublist.subset hc
  rw [List.mem_reverse] at h1
  exact (List.dropWhile_suffix isWs (l := l)).sublist.subset h1

theorem charColonMatch_has_colon (t : List Char) (run : List Char)
    (h : charColonMatch t = some run) :
    ∃ c ∈ t, c = ':' ∨ c = Char.ofNat 0xFF1A := by
  unfold charColonMatch at h
  by_cases hrun : (t.takeWhile charClassParen).isEmpty
  · simp [hrun] at h
  · simp only [hrun, Bool.false_eq_true, if_false] at h
    rcases hd : (t.drop (t.takeWhile charClassParen).length).head? with _ | c
    · rw [hd] at h; simp at h
    · rw [hd] at h
      have hcmem : c ∈ t := by
        rcases hdrop : t.drop (t.takeWhile charClassParen).length with _ | ⟨d, r⟩
        · rw [hdrop] at hd; simp at hd
        · rw [hdrop] at hd
          simp only [List.head?_cons, Option.some.injEq] at hd
          subst hd
          exact (List.drop_subset _ t) (by rw [hdrop]; exact List.mem_cons_self _ _)
      by_cases hc : c = ':' || c = Char.ofNat 0xFF1A
      · rcases Bool.or_eq_true _ _ |>.mp hc with h1 | h1
        · exact ⟨c, hcmem, Or.inl (by simpa using h1)⟩
        · exact ⟨c, hcmem, Or.inr (by simpa using h1)⟩
      · simp [hc] at h

/-- C7 (amended): `DialogueDetector.isCharacterName` rejects every line
consisting only of Arabic letters and spaces that contains one of its
fixed common words (shortness is not even needed); the classifier's
`isCharacterLine` has no such check (see the counterexample). -/
theorem commonWord_rejection_amended (l : List Char)
    (hchars : ∀ c ∈ l, arabicBlockChar c = true ∨ c = ' ')
    (hcw : containsCommonWords (jsTrim l) = true) :
    detIsCharacterName l = false := by
  have hnone : charColonMatch (jsTrim l) = none := by
    rcases hm : charColonMatch (jsTrim l) with _ | run
    · rfl
    · exfalso
      obtain ⟨c, hcmem, hc⟩ := charColonMatch_has_colon _ _ hm
      have hcl : c ∈ l := mem_jsTrim_subset l c hcmem
      rcases hchars c hcl with h1 | h1 <;> rcases hc with h2 | h2 <;>
        subst h2 <;> simp [arabicBlockChar] at h1
  unfold detIsCharacterName
  simp only [hnone, hcw]
  simp

theorem commonWord_rejection_amended_witness :
    (∀ c ∈ ("في البيت".data : List Char), arabicBlockChar c = true ∨ c = ' ') ∧
    containsCommonWords (jsTrim ("في البيت".data)) = true ∧
    detIsCharacterName ("في البيت".data) = false :=
  ⟨by decide, by decide,
   commonWord_rejection_amended ("في البيت".data) (by decide) (by decide)⟩

/-! ## Claim C8: out-of-range and non-matching extraction returns null -/

/-- C8: scene-header extraction and dialogue-block extraction return
`none` (and, being total functions of the embedding, throw nothing) when
the start index is at or beyond the end of the line array, and likewise
when the line at the start index fails the respective start pattern (the
scene-prefix regex, resp. the character-name predicate). -/
theorem extraction_out_of_bounds_null (lines : List (List Char)) (startIndex : ℕ) :
    (lines.length ≤ startIndex →
       extractSceneHeaderPartsExt lines startIndex = none ∧
       extractDialogueBlock lines startIndex = none) ∧
    (extScenePrefixMatch (jsTrim (lines.getD startIndex [])) = none →
       extractSceneHeaderPartsExt lines startIndex = none) ∧
    (detIsCharacterName (jsTrim (lines.getD startIndex [])) = false →
       extractDialogueBlock lines startIndex = none) := by
  refine ⟨fun h => ⟨?_, ?_⟩, fun h => ?_, fun h => ?_⟩
  · unfold extractSceneHeaderPartsExt
    rw [if_pos h]
  · unfold extractDialogueBlock
    rw [if_pos h]
  · unfold extractSceneHeaderPartsExt
    by_cases hlen : lines.length ≤ startIndex
    · rw [if_pos hlen]
    · rw [if_neg hlen]
      simp only [h]
  · unfold extractDialogueBlock
    by_cases hlen : lines.length ≤ startIndex
    · rw [if_pos hlen]
    · rw [if_neg hlen]
      simp only [h, Bool.not_false, if_true]

theorem extraction_out_of_bounds_null_witness :
    (["أحمد".data] : List (List Char)).length ≤ 5 ∧
    extractSceneHeaderPartsExt ["أحمد".data] 5 = none ∧
    extractDialogueBlock ["أحمد".data] 5 = none :=
  ⟨by decide,
   ((extraction_out_of_bounds_null ["أحمد".data] 5).1 (by decide)).1,
   ((extraction_out_of_bounds_null ["أحمد".data] 5).1 (by decide)).2⟩

/-! ## Claim C5: blank lines versus place aggregation -/

theorem collectPlaceGo_blank_step (fuel : ℕ) (lines : List (List Char)) (i : ℕ)
    (place : List Char) (hi : i < lines.length)
    (hb : isBlank (normalizeLine (lines.getD i [])) = true) :
    collectPlaceGo (fuel + 1) lines i place =
      ((collectPlaceGo fuel lines (i + 1) place).1,
       (collectPlaceGo fuel lines (i + 1) place).2 + 1) := by
  rw [collectPlaceGo, if_pos hi]
  simp only [hb, if_true]

theorem collectPlaceGo_stop : ∀ (fuel : ℕ) (lines : List (List Char)) (i : ℕ)
    (place : List Char), lines.length - i < fuel →
    lines.length ≤ i + (collectPlaceGo fuel lines i place).2 ∨
    (isSceneHeaderStart (normalizeLine (lines.getD (i + (collectPlaceGo fuel lines i place).2) [])) ||
     isTransition (normalizeLine (lines.getD (i + (collectPlaceGo fuel lines i place).2) [])) ||
     isCharacterLine (normalizeLine (lines.getD (i + (collectPlaceGo fuel lines i place).2) [])) ||
     isParentheticalC (normalizeLine (lines.getD (i + (collectPlaceGo fuel lines i place).2) [])) ||
     isBasmala (normalizeLine (lines.getD (i + (collectPlaceGo fuel lines i place).2) []))) = true := by
  intro fuel
  induction fuel with
  | zero => intro lines i place h; exact absurd h (by omega)
  | succ fuel ih =>
    intro lines i place h
    rw [collectPlaceGo]
    by_cases hi : i < lines.length
    · simp only [hi, if_true]
      by_cases hb : isBlank (normalizeLine (lines.getD i []))
      · simp only [hb, if_true]
        rcases ih lines (i + 1) place (by omega) with h1 | h1
        · left; omega
        · right
          have harith : i + ((collectPlaceGo fuel lines (i + 1) place).2 + 1) =
              i + 1 + (collectPlaceGo fuel lines (i + 1) place).2 := by omega
          rw [harith]
          exact h1
      · simp only [hb, Bool.false_eq_true, if_false]
        by_cases hs : (isSceneHeaderStart (normalizeLine (lines.getD i [])) ||
            isTransition (normalizeLine (lines.getD i [])) ||
            isCharacterLine (normalizeLine (lines.getD i [])) ||
            isParentheticalC (normalizeLine (lines.getD i [])) ||
            isBasmala (normalizeLine (lines.getD i []))) = true
        · right
          simp only [hs, if_true]
          simpa using hs
        · simp only [hs, Bool.false_eq_true, if_false]
          rcases ih lines (i + 1)
              (if (jsTrim (stripLeadDashReq (normalizeSeparators (normalizeLine (lines.getD i []))))).isEmpty = true
               then place
               else if place.isEmpty = true
               then jsTrim (stripLeadDashReq (normalizeSeparators (normalizeLine (lines.getD i []))))
               else place ++ [' ', '–', ' '] ++
                 jsTrim (stripLeadDashReq (normalizeSeparators (normalizeLine (lines.getD i [])))))
              (by omega) with h1 | h1
          · left; omega
          · right
            have harith : ∀ c : ℕ, i + (c + 1) = i + 1 + c := by omega
            rw [harith]
            exact h1
    · left
      simp only [hi, if_false]
      omega

theorem extCollectGo_blank_stop (fuel : ℕ) (lines : List (List Char)) (i : ℕ)
    (place : List Char) (consumed : ℕ) (h : i < lines.length)
    (hb : (jsTrim (lines.get ⟨i, h⟩)).isEmpty = true) :
    extCollectGo (fuel + 1) lines i place consumed = (place, consumed) := by
  rw [extCollectGo]
  have hb2 : jsTrim lines[i] = [] := by simpa using hb
  simp [h, hb2]

/-- C5 (counterexample to the claim as stated): on
`["مشهد 1 - داخلي-نهار", "", "القصر"]` the extractor stops aggregating at
the blank line and returns `place = ""`, `consumedLines = 1`, even though
the following line `"القصر"` is non-blank and not a structural element —
so a blank line terminates aggregation rather than being skipped. -/
theorem sceneHeader_aggregation_counterexample :
    extractSceneHeaderPartsExt ["مشهد 1 - داخلي-نهار".data, "".data, "القصر".data] 0 =
      some ⟨"مشهد 1".data, "داخلي-نهار".data, "".data, 1⟩ ∧
    extIsNewStructural (jsTrim ("القصر".data)) = false ∧
    (jsTrim ("القصر".data)).isEmpty = false := by
  refine ⟨by decide, by decide, by decide⟩

/-- C5 (amended): the two implementations treat blank lines differently.
The classifier's place-aggregation loop skips a blank line and keeps
consuming (first conjunct), and when given enough fuel it stops only at
the end of the line array or at a line satisfying one of its five
structural predicates (second conjunct); the extractor's loop, by
contrast, terminates immediately at a blank line (third conjunct). -/
theorem sceneHeader_aggregation_amended :
    (∀ (fuel : ℕ) (lines : List (List Char)) (i : ℕ) (place : List Char),
       i < lines.length →
       isBlank (normalizeLine (lines.getD i [])) = true →
       collectPlaceGo (fuel + 1) lines i place =
         ((collectPlaceGo fuel lines (i + 1) place).1,
          (collectPlaceGo fuel lines (i + 1) place).2 + 1)) ∧
    (∀ (fuel : ℕ) (lines : List (List Char)) (i : ℕ) (place : List Char),
       lines.length - i < fuel →
       lines.length ≤ i + (collectPlaceGo fuel lines i place).2 ∨
       (isSceneHeaderStart (normalizeLine (lines.getD (i + (collectPlaceGo fuel lines i place).2) [])) ||
        isTransition (normalizeLine (lines.getD (i + (collectPlaceGo fuel lines i place).2) [])) ||
        isCharacterLine (normalizeLine (lines.getD (i + (collectPlaceGo fuel lines i place).2) [])) ||
        isParentheticalC (normalizeLine (lines.getD (i + (collectPlaceGo fuel lines i place).2) [])) ||
        isBasmala (normalizeLine (lines.getD (i + (collectPlaceGo fuel lines i place).2) []))) = true) ∧
    (∀ (fuel : ℕ) (lines : List (List Char)) (i : ℕ) (place : List Char)
       (consumed : ℕ) (h : i < lines.length),
       (jsTrim (lines.get ⟨i, h⟩)).isEmpty = true →
       extCollectGo (fuel + 1) lines i place consumed = (place, consumed)) :=
  ⟨fun fuel lines i place hi hb => collectPlaceGo_blank_step fuel lines i place hi hb,
   fun fuel lines i place h => collectPlaceGo_stop fuel lines i place h,
   fun fuel lines i place consumed h hb => extCollectGo_blank_stop fuel lines i place consumed h hb⟩

theorem sceneHeader_aggregation_amended_witness :
    (collectPlaceGo 3 ["".data, "مشهد 2".data] 0 "أ".data =
       ((collectPlaceGo 2 ["".data, "مشهد 2".data] 1 "أ".data).1,
        (collectPlaceGo 2 ["".data, "مشهد 2".data] 1 "أ".data).2 + 1)) ∧
    ((["".data, "مشهد 2".data] : List (List Char)).length ≤
       0 + (collectPlaceGo 3 ["".data, "مشهد 2".data] 0 "أ".data).2 ∨
     (isSceneHeaderStart (normalizeLine (["".data, "مشهد 2".data].getD
        (0 + (collectPlaceGo 3 ["".data, "مشهد 2".data] 0 "أ".data).2) [])) ||
      isTransition (normalizeLine (["".data, "مشهد 2".data].getD
        (0 + (collectPlaceGo 3 ["".data, "مشهد 2".data] 0 "أ".data).2) [])) ||
      isCharacterLine (normalizeLine (["".data, "مشهد 2".data].getD
        (0 + (collectPlaceGo 3 ["".data, "مشهد 2".data] 0 "أ".data).2) [])) ||
      isParentheticalC (normalizeLine (["".data, "مشهد 2".data].getD
        (0 + (collectPlaceGo 3 ["".data, "مشهد 2".data] 0 "أ".data).2) [])) ||
      isBasmala (normalizeLine (["".data, "مشهد 2".data].getD
        (0 + (collectPlaceGo 3 ["".data, "مشهد 2".data] 0 "أ".data).2) []))) = true) ∧
    extCollectGo 2 [" ".data] 0 "ب".data 4 = ("ب".data, 4) :=
  ⟨sceneHeader_aggregation_amended.1 2 ["".data, "مشهد 2".data] 0 "أ".data
     (by decide) (by decide),
   sceneHeader_aggregation_amended.2.1 3 ["".data, "مشهد 2".data] 0 "أ".data (by decide),
   sceneHeader_aggregation_amended.2.2 1 [" ".data] 0 "ب".data 4 (by decide) (by decide)⟩

/-! ## Claim C9: empty and whitespace-only input -/

theorem jsTrim_eq_nil_of_all_ws (l : List Char) (h : ∀ c ∈ l, isWs c = true) :
    jsTrim l = [] := by
  unfold jsTrim
  rw [List.dropWhile_eq_nil_iff.mpr h]
  simp

theorem crlfToLf_all_ws : ∀ (s : List Char), (∀ c ∈ s, isWs c = true) →
    ∀ c ∈ crlfToLf s, isWs c = true
  | [], _ => by simp [crlfToLf]
  | c1 :: c2 :: t, h => by
      have ih := crlfToLf_all_ws (c2 :: t)
        (fun c hc => h c (List.mem_cons_of_mem _ hc))
      have iht := crlfToLf_all_ws t
        (fun c hc => h c (List.mem_cons_of_mem _ (List.mem_cons_of_mem _ hc)))
      by_cases h1 : c1 = Char.ofNat 13
      · by_cases h2 : c2 = Char.ofNat 10
        · rw [crlfToLf, if_pos h1, if_pos h2]
          intro c hc
          rcases List.mem_cons.mp hc with rfl | hc
          · decide
          · exact iht c hc
        · rw [crlfToLf, if_pos h1, if_neg h2]
          intro c hc
          rcases List.mem_cons.mp hc with rfl | hc
          · decide
          · exact ih c hc
      · rw [crlfToLf, if_neg h1]
        intro c hc
        rcases List.mem_cons.mp hc with rfl | hc
        · exact h c (List.mem_cons_self _ _)
        · exact ih c hc
  | [c0], h => by
      by_cases h1 : c0 = Char.ofNat 13
      · rw [crlfToLf, if_pos h1]
        intro c hc
        rcases List.mem_cons.mp hc with rfl | hc
        · decide
        · simp at hc
      · rw [crlfToLf, if_neg h1]
        intro c hc
        rcases List.mem_cons.mp hc with rfl | hc
        · exact h c (List.mem_cons_self _ _)
        · simp at hc

theorem splitNl_mem : ∀ (s : List Char) (L : List Char), L ∈ splitNl s →
    ∀ c ∈ L, c ∈ s
  | [], L, hL => by
      simp [splitNl] at hL
      subst hL
      simp
  | c0 :: t, L, hL => by
      by_cases h0 : c0 = Char.ofNat 10
      · rw [splitNl, if_pos h0] at hL
        rcases List.mem_cons.mp hL with rfl | hL
        · simp
        · intro c hc
          exact List.mem_cons_of_mem _ (splitNl_mem t L hL c hc)
      · rw [splitNl, if_neg h0] at hL
        rcases hm : splitNl t with _ | ⟨f, rest⟩
        · rw [hm] at hL
          simp at hL
          subst hL
          intro c hc
          simp at hc
          simp [hc]
        · rw [hm] at hL
          rcases List.mem_cons.mp hL with rfl | hL
          · intro c hc
            rcases List.mem_cons.mp hc with rfl | hc
            · exact List.mem_cons_self _ _
            · exact List.mem_cons_of_mem _
                (splitNl_mem t f (by rw [hm]; exact List.mem_cons_self _ _) c hc)
          · intro c hc
            exact List.mem_cons_of_mem _
              (splitNl_mem t L (by rw [hm]; exact List.mem_cons_of_mem _ hL) c hc)

theorem getD_all_ws (lines : List (List Char)) (i : ℕ)
    (h : ∀ L ∈ lines, ∀ c ∈ L, isWs c = true) (hi : i < lines.length) :
    ∀ c ∈ lines.getD i [], isWs c = true := by
  intro c hc
  rw [List.getD_eq_getElem lines [] hi] at hc
  exact h _ (List.getElem_mem hi) c hc

theorem analyzeGo_all_ws : ∀ (fuel : ℕ) (lines : List (List Char)) (i : ℕ),
    (∀ L ∈ lines, ∀ c ∈ L, isWs c = true) → lines.length ≤ i + fuel →
    analyzeGo fuel lines i =
      List.replicate (lines.length - i) ⟨ElementKind.action, [], [[]]⟩ := by
  intro fuel
  induction fuel with
  | zero =>
    intro lines i h hle
    have h0 : lines.length - i = 0 := by omega
    rw [analyzeGo, h0]
    rfl
  | succ fuel ih =>
    intro lines i h hle
    rw [analyzeGo]
    by_cases hi : i < lines.length
    · have htr : jsTrim (lines.getD i []) = [] :=
        jsTrim_eq_nil_of_all_ws _ (getD_all_ws lines i h hi)
      simp only [hi, if_true, htr, List.isEmpty_nil, if_pos]
      rw [ih lines (i + 1) h (by omega)]
      have hsz : lines.length - i = (lines.length - (i + 1)) + 1 := by omega
      rw [hsz]
      rfl
    · simp only [hi, if_false]
      have h0 : lines.length - i = 0 := by omega
      rw [h0]
      rfl

theorem pfGo_all_ws : ∀ (fuel : ℕ) (lines : List (List Char)) (i : ℕ),
    (∀ L ∈ lines, ∀ c ∈ L, isWs c = true) → lines.length ≤ i + fuel →
    pfGo fuel lines i =
      (List.replicate (lines.length - i) blankActionDiv).flatten := by
  intro fuel
  induction fuel with
  | zero =>
    intro lines i h hle
    have h0 : lines.length - i = 0 := by omega
    rw [pfGo, h0]
    rfl
  | succ fuel ih =>
    intro lines i h hle
    rw [pfGo]
    by_cases hi : i < lines.length
    · have htr : jsTrim (lines.getD i []) = [] :=
        jsTrim_eq_nil_of_all_ws _ (getD_all_ws lines i h hi)
      simp only [hi, if_true, htr, List.isEmpty_nil, if_pos]
      rw [ih lines (i + 1) h (by omega)]
      have hsz : lines.length - i = (lines.length - (i + 1)) + 1 := by omega
      rw [hsz]
      rfl
    · simp only [hi, if_false]
      have h0 : lines.length - i = 0 := by omega
      rw [h0]
      rfl

/-- C9 (counterexample to the claim as stated): on the empty string,
`analyzeContent` does not return an empty element list — it returns one
blank action element, because `"".split('\n')` is `[""]`, not `[]`.
(`parseAndFormat` does return the empty string, via its early return.) -/
theorem empty_input_counterexample :
    analyzeContent [] = [⟨ElementKind.action, [], [[]]⟩] ∧
    (analyzeContent []).length = 1 ∧
    parseAndFormat [] = [] := by
  refine ⟨by decide, by decide, by decide⟩

/-- C9 (amended): `parseAndFormat` returns the empty string on empty input,
but `analyzeContent` on empty input returns one blank action element; and
on every non-empty all-whitespace input, each function emits exactly one
blank element (resp. one blank action `div`) per newline-separated field
of the input. -/
theorem empty_whitespace_behavior_amended :
    parseAndFormat [] = [] ∧
    analyzeContent [] = [⟨ElementKind.action, [], [[]]⟩] ∧
    (∀ s : List Char, s ≠ [] → (∀ c ∈ s, isWs c = true) →
       analyzeContent s =
         List.replicate (splitNl (crlfToLf s)).length ⟨ElementKind.action, [], [[]]⟩ ∧
       parseAndFormat s =
         (List.replicate (splitNl s).length blankActionDiv).flatten) := by
  refine ⟨by decide, by decide, fun s hne hws => ⟨?_, ?_⟩⟩
  · unfold analyzeContent
    rw [analyzeGo_all_ws _ _ 0
      (fun L hL c hc => crlfToLf_all_ws s hws c (splitNl_mem (crlfToLf s) L hL c hc))
      (by omega)]
    rw [Nat.sub_zero]
  · unfold parseAndFormat
    have hie : s.isEmpty = false := by
      rcases s with _ | ⟨c, t⟩
      · exact absurd rfl hne
      · rfl
    simp only [hie, Bool.false_eq_true, if_false]
    rw [pfGo_all_ws _ _ 0
      (fun L hL c hc => hws c (splitNl_mem s L hL c hc))
      (by omega)]
    rw [Nat.sub_zero]

theorem empty_whitespace_behavior_amended_witness :
    ([' '] : List Char) ≠ [] ∧
    analyzeContent [' '] =
      List.replicate (splitNl (crlfToLf [' '])).length ⟨ElementKind.action, [], [[]]⟩ ∧
    parseAndFormat [' '] = (List.replicate (splitNl [' ']).length blankActionDiv).flatten :=
  ⟨by decide,
   (empty_whitespace_behavior_amended.2.2 [' '] (by decide) (by decide)).1,
   (empty_whitespace_behavior_amended.2.2 [' '] (by decide) (by decide)).2⟩

/-! ## Claim C6: the Arabic-translation continuation rule -/

theorem stripTrailing_decomp (d : List Char) :
    d = (d.reverse.dropWhile isWs).reverse ++ (d.reverse.takeWhile isWs).reverse := by
  rw [← List.reverse_append, List.takeWhile_append_dropWhile, List.reverse_reverse]

theorem jsTrim_decomp (l : List Char) :
    l.dropWhile isWs = jsTrim l ++ ((l.dropWhile isWs).reverse.takeWhile isWs).reverse := by
  unfold jsTrim
  exact stripTrailing_decomp (l.dropWhile isWs)

theorem firstNonWs_of_head (l : List Char) (c : Char)
    (h : (jsTrim l).head? = some c) : ∃ r, l.dropWhile isWs = c :: r := by
  obtain ⟨u, hu⟩ : ∃ u, jsTrim l = c :: u := by
    rcases hj : jsTrim l with _ | ⟨d, t⟩
    · rw [hj] at h; simp at h
    · rw [hj] at h
      simp only [List.head?_cons, Option.some.injEq] at h
      exact ⟨t, by rw [h]⟩
  refine ⟨u ++ ((l.dropWhile isWs).reverse.takeWhile isWs).reverse, ?_⟩
  have hd := jsTrim_decomp l
  rw [hu] at hd
  simpa using hd

theorem isPrefixOf_cons_ne (a b : Char) (as bs : List Char) (h : a ≠ b) :
    (a :: as).isPrefixOf (b :: bs) = false := by
  cases hx : (a :: as).isPrefixOf (b :: bs) with
  | false => rfl
  | true =>
      rw [List.isPrefixOf_iff_prefix, List.cons_prefix_cons] at hx
      exact absurd hx.1 h

theorem basmalaRE_paren (m r : List Char) (hm : m.dropWhile isWs = '(' :: r) :
    basmalaRE m = false := by
  unfold basmalaRE
  simp only [hm]
  have h1 : eatWordWs "بسم".data ('(' :: r) = none := by
    unfold eatWordWs
    rw [show ("بسم".data : List Char) = 'ب' :: "سم".data from rfl,
        isPrefixOf_cons_ne 'ب' '(' _ _ (by decide)]
    rfl
  rw [h1]

theorem cScenePrefixMatch_paren (m r : List Char) (hm : m.dropWhile isWs = '(' :: r) :
    cScenePrefixMatch m = none := by
  unfold cScenePrefixMatch
  simp only [hm]
  have h1 : tryOpts ["مشهد".data, "م.".data] ('(' :: r) = none := by
    unfold tryOpts
    rw [show ("مشهد".data : List Char) = 'م' :: "شهد".data from rfl,
        show ("م.".data : List Char) = 'م' :: ".".data from rfl]
    simp [List.findSome?_cons, isPrefixOf_cons_ne 'م' '(' _ _ (by decide)]
  rw [h1]

theorem cTransitionCore_paren (u : List Char) : cTransitionCore ('(' :: u) = false := by
  have hp1 : (('ق' :: "طع".data).isPrefixOf ('(' :: u)) = false :=
    isPrefixOf_cons_ne 'ق' '(' _ _ (by decide)
  have hp2 : (('خ' :: "ارج".data).isPrefixOf ('(' :: u)) = false :=
    isPrefixOf_cons_ne 'خ' '(' _ _ (by decide)
  have q1 : ('(' : Char) ≠ 'ق' := by decide
  have q2 : ('(' : Char) ≠ 'إ' := by decide
  have q3 : ('(' : Char) ≠ 'م' := by decide
  have q4 : ('(' : Char) ≠ 'ذ' := by decide
  have hC : asciiLower '(' ≠ asciiLower 'C' := by decide
  have hF : asciiLower '(' ≠ asciiLower 'F' := by decide
  unfold cTransitionCore matchTwoWordsExact eqCI
  rw [show ("قطع".data : List Char) = 'ق' :: "طع".data from rfl,
      show ("خارج".data : List Char) = 'خ' :: "ارج".data from rfl,
      show ("إلى".data : List Char) = 'إ' :: "لى".data from rfl,
      show ("مزج".data : List Char) = 'م' :: "زج".data from rfl,
      show ("ذوبان".data : List Char) = 'ذ' :: "وبان".data from rfl,
      show ("CUT TO:".data : List Char) = 'C' :: "UT TO:".data from rfl,
      show ("FADE IN:".data : List Char) = 'F' :: "ADE IN:".data from rfl,
      show ("FADE OUT:".data : List Char) = 'F' :: "ADE OUT:".data from rfl,
      hp1, hp2]
  simp [q1, q2, q3, q4, hC, hF]

theorem charREcore_paren (r : List Char) : charREcore ('(' :: r) = false := by
  unfold charREcore
  simp [show arabicBlockChar '(' = false from by decide]

theorem characterRE_paren (m r : List Char) (hm : m.dropWhile isWs = '(' :: r) :
    characterRE m = false := by
  unfold characterRE
  simp only [hm]
  rw [isPrefixOf_cons_ne 'ص' '(' ['و', 'ت'] r (by decide)]
  simp [charREcore_paren]

theorem isCharacterLine_paren (line r : List Char)
    (hm : (normalizeLine line).dropWhile isWs = '(' :: r) :
    isCharacterLine line = false := by
  by_cases hA : isSceneHeaderStart (normalizeLine line) = true
  · simp [isCharacterLine, hA]
  · by_cases hB : isTransition (normalizeLine line) = true
    · simp [isCharacterLine, hA, hB]
    · simp [isCharacterLine, hA, hB, characterRE_paren _ _ hm]

theorem jsTrim_nil_all_ws (l : List Char) (h : jsTrim l = []) :
    ∀ c ∈ l, isWs c = true := by
  intro c hc
  unfold jsTrim at h
  rw [List.reverse_eq_nil_iff, List.dropWhile_eq_nil_iff] at h
  have hsplit : l.takeWhile isWs ++ l.dropWhile isWs = l :=
    List.takeWhile_append_dropWhile isWs l
  rw [← hsplit] at hc
  rcases List.mem_append.mp hc with h1 | h1
  · exact mem_takeWhile_eq_true isWs l c h1
  · exact h c (List.mem_reverse.mpr h1)

theorem easternToWestern_ws (c : Char) (hc : isWs c = true) :
    easternToWestern c = c := by
  unfold easternToWestern
  have hneg : ¬((0x660 ≤ c.toNat && c.toNat ≤ 0x669) = true) := by
    simp only [Bool.and_eq_true, decide_eq_true_eq, not_and]
    intro h1 h2
    simp only [isWs, Bool.or_eq_true, Bool.and_eq_true, decide_eq_true_eq] at hc
    omega
  rw [if_neg hneg]

theorem normalizeLine_all_ws (l : List Char) (h : ∀ c ∈ l, isWs c = true) :
    ∀ c ∈ normalizeLine l, isWs c = true := by
  intro c hc
  unfold normalizeLine stripTrailingWs at hc
  rw [List.mem_reverse] at hc
  have hc2 := (List.dropWhile_suffix isWs).sublist.subset hc
  rw [List.mem_reverse] at hc2
  obtain ⟨d, hd, hdc⟩ := List.mem_map.mp hc2
  have hd2 := List.mem_of_mem_filter hd
  have hd3 := List.mem_of_mem_filter hd2
  obtain ⟨e, he, hec⟩ := List.mem_map.mp hd3
  have hwe : isWs e = true := h e he
  have hde : d = e := by rw [← hec, easternToWestern_ws e hwe]
  subst hde
  by_cases h9 : d = Char.ofNat 9
  · rw [← hdc, if_pos h9]; decide
  · rw [← hdc, if_neg h9]; exact hwe

theorem isBlank_false_of_trim_paren (m : List Char) (c : Char) (u : List Char)
    (hu : jsTrim (normalizeLine m) = c :: u) : isBlank m = false := by
  unfold isBlank
  have h1 : m.isEmpty = false := by
    rcases m with _ | ⟨a, t⟩
    · exfalso
      rw [show normalizeLine [] = [] from rfl] at hu
      rw [show jsTrim [] = [] from rfl] at hu
      simp at hu
    · rfl
  have h2 : (jsTrim m).isEmpty = false := by
    rcases hj : jsTrim m with _ | ⟨a, t⟩
    · exfalso
      have hws : ∀ d ∈ m, isWs d = true := jsTrim_nil_all_ws m hj
      have hws2 : ∀ d ∈ normalizeLine m, isWs d = true := normalizeLine_all_ws m hws
      rw [jsTrim_eq_nil_of_all_ws _ hws2] at hu
      simp at hu
    · rfl
  rw [h1, h2]
  rfl

/-- C6: the translation continuation rule of `classifyDocument`.  When the
scan reaches a parenthesized line (first non-space `(`, last non-space `)`
after normalization) that contains Arabic letters and no Syriac letters,
while a character is active and the last dialogue context is `syriac` or
`translation`, the line is appended to the dialogue bucket for the active
character with `isTranslation = true` and language `"ar"`, and the context
becomes `translation`. -/
theorem translation_continuation_rule (fuel : ℕ) (lines : List (List Char))
    (idx : ℕ) (out : ExtractResult) (X : List Char) (ctx : DlgCtx)
    (hidx : idx < lines.length)
    (hX : X ≠ [])
    (hctx : ctx = DlgCtx.syriac ∨ ctx = DlgCtx.translation)
    (hp : isParentheticalC (normalizeLine (lines.getD idx [])) = true)
    (ha : (normalizeLine (lines.getD idx [])).any arabicLetterChar = true)
    (hs : (normalizeLine (lines.getD idx [])).any syriacChar = false) :
    classifyGo (fuel + 1) lines idx out (some X) (some ctx) =
      classifyGo fuel lines (idx + 1)
        { out with dialogue := out.dialogue ++
            [⟨X, trimLooseParens (lines.getD idx []), true, "ar".data⟩] }
        (some X) (some DlgCtx.translation) := by
  have hp2 := hp
  unfold isParentheticalC at hp2
  simp only [Bool.and_eq_true, decide_eq_true_eq] at hp2
  obtain ⟨⟨hlen2, hhead⟩, hlast⟩ := hp2
  obtain ⟨r, hm⟩ := firstNonWs_of_head (normalizeLine (normalizeLine (lines.getD idx []))) '(' hhead
  obtain ⟨u2, hu⟩ : ∃ u2,
      jsTrim (normalizeLine (normalizeLine (lines.getD idx []))) = '(' :: u2 := by
    rcases hj : jsTrim (normalizeLine (normalizeLine (lines.getD idx []))) with _ | ⟨d, t⟩
    · rw [hj] at hhead; simp at hhead
    · rw [hj] at hhead
      simp only [List.head?_cons, Option.some.injEq] at hhead
      exact ⟨t, by rw [hhead]⟩
  have hBl : isBlank (normalizeLine (lines.getD idx [])) = false :=
    isBlank_false_of_trim_paren _ '(' u2 hu
  have hBas : isBasmala (normalizeLine (lines.getD idx [])) = false := by
    unfold isBasmala
    exact basmalaRE_paren _ _ hm
  have hSc : isSceneHeaderStart (normalizeLine (lines.getD idx [])) = false := by
    unfold isSceneHeaderStart
    rw [cScenePrefixMatch_paren _ _ hm]
    rfl
  have hTr : isTransition (normalizeLine (lines.getD idx [])) = false := by
    unfold isTransition
    rw [hu]
    exact cTransitionCore_paren u2
  have hCh : isCharacterLine (normalizeLine (lines.getD idx [])) = false :=
    isCharacterLine_paren _ _ hm
  have hcc : ccActive (some X) = true := by
    unfold ccActive
    simp [hX]
  rw [classifyGo]
  simp only [hidx, if_true]
  simp only [hBl, hBas, hSc, hTr, hCh, Bool.false_eq_true, if_false]
  simp only [hp, Bool.true_or, hcc, ha, hs, Bool.true_and, Bool.and_true,
    Bool.not_false]
  rcases hctx with rfl | rfl <;> simp

theorem translation_continuation_rule_witness :
    isParentheticalC (normalizeLine ((["(مرحبا)".data] : List (List Char)).getD 0 [])) = true ∧
    classifyGo 1 ["(مرحبا)".data] 0 {} (some "شمعون".data) (some DlgCtx.syriac) =
      classifyGo 0 ["(مرحبا)".data] 1
        { dialogue := [(⟨"شمعون".data,
            trimLooseParens ((["(مرحبا)".data] : List (List Char)).getD 0 []),
            true, "ar".data⟩ : DialogueEntry)] }
        (some "شمعون".data) (some DlgCtx.translation) :=
  ⟨by decide,
   translation_continuation_rule 0 ["(مرحبا)".data] 0 {} "شمعون".data DlgCtx.syriac
     (by decide) (by decide) (Or.inl rfl) (by decide) (by decide) (by decide)⟩

end Screenplay
